import Mathlib

/-!
Verification development for the `antigravity_live_preview` extension.

The embedding below translates the core logic of
`src/multiTabPreviewPanel.ts` (class `MultiTabPreviewPanel`) into Lean:

* the tab session store (`_tabs`, `_activeTabId`, `_tabCounter`) with the
  operations `_addNewTab`, `_switchTab`, `_closeTab`,
  `_updateActiveTabFromEditor`;
* the debounce/dispose behaviour of the constructor's
  `onDidChangeTextDocument` handler and `dispose()`;
* the text-substitution passes of `_convertResourcePaths` (CSS link
  inlining, generic `src` rewriting, script inlining), modelled as
  character-list scanners that mirror the JavaScript regex semantics
  (case-insensitive literals, lazy groups, the negative lookahead
  `http | https script-relative // | data:`, and global replacement).

Host-provided primitives (the focused editor, the filesystem, and the
webview URI mapper) are parameters of the corresponding functions.
-/

/-- Strings are modelled as character lists throughout, so that every
definition is structurally recursive and kernel-computable. -/
abbrev Chars := List Char

/-- `PreviewTab` from `multiTabPreviewPanel.ts`: `id`, `title`, optional
bound source `uri`, and the last synchronized `content`. -/
structure PreviewTab where
  id : Chars
  title : Chars
  uri : Option Chars
  content : Chars
deriving DecidableEq

/-- The host editor document visible to `_updateActiveTabFromEditor`:
`vscode.window.activeTextEditor` projected to the fields the code reads. -/
structure EditorDoc where
  languageId : Chars
  docUri : Chars
  fileName : Chars
  text : Chars
deriving DecidableEq

/-- The session store slice of `MultiTabPreviewPanel`:
`_tabs`, `_activeTabId`, `_tabCounter`. -/
structure Store where
  tabs : List PreviewTab
  activeTabId : Chars
  tabCounter : Nat
deriving DecidableEq

/-- Decimal digit character, as produced by JavaScript number-to-string
conversion inside the template literal `tab-${this._tabCounter}`. -/
def digitChar10 (d : Nat) : Char := Char.ofNat (48 + d)

/-- Fuelled decimal rendering of a natural number (most significant digit
first); fuel is only a structural-recursion device. -/
def natCharsF : Nat → Nat → Chars
  | 0, _ => []
  | f + 1, n => if n < 10 then [digitChar10 n] else natCharsF f (n / 10) ++ [digitChar10 (n % 10)]

/-- Decimal rendering of a natural number, e.g. `natChars 12 = ['1','2']`;
models the JavaScript `${counter}` interpolation. -/
def natChars (n : Nat) : Chars := natCharsF (n + 1) n

/-- The tab id `tab-${n}` generated in `_addNewTab`. -/
def mkId (n : Nat) : Chars := ['t', 'a', 'b', '-'] ++ natChars n

/-- The placeholder title `Tab ${n}` generated in `_addNewTab`. -/
def mkTitle (n : Nat) : Chars := ['T', 'a', 'b', ' '] ++ natChars n

/-- `path.basename`: the final path segment of a file name (host primitive
used to set the tab title). -/
def basename (p : Chars) : Chars := (p.reverse.takeWhile (fun c => c ≠ '/')).reverse

/-- Mutate the first element satisfying `p` (JavaScript
`this._tabs.find(...)` followed by in-place mutation of the found object);
identity when nothing matches. -/
def updateFirst (p : PreviewTab → Bool) (f : PreviewTab → PreviewTab) : List PreviewTab → List PreviewTab
  | [] => []
  | t :: ts => if p t then f t :: ts else t :: updateFirst p f ts

/-- `_updateActiveTabFromEditor`: if an editor with an HTML document is
focused, bind the active tab to it (uri, title from the file name,
content); otherwise do nothing. -/
def updateActiveTabFromEditor (ed : Option EditorDoc) (s : Store) : Store :=
  match ed with
  | none => s
  | some e =>
    if e.languageId = ['h', 't', 'm', 'l'] then
      let f := fun (t : PreviewTab) =>
        { t with uri := some e.docUri, title := basename e.fileName, content := e.text }
      { s with tabs := updateFirst (fun t => t.id == s.activeTabId) f s.tabs }
    else s

/-- `_addNewTab`: increment the counter, append a fresh unbound tab, make
it active, then try to fill it from the focused editor. -/
def addNewTab (ed : Option EditorDoc) (s : Store) : Store :=
  let n := s.tabCounter + 1
  let newTab : PreviewTab := { id := mkId n, title := mkTitle n, uri := none, content := [] }
  updateActiveTabFromEditor ed
    { tabs := s.tabs ++ [newTab], activeTabId := mkId n, tabCounter := n }

/-- `_switchTab`: the source assigns `this._activeTabId = tabId`
unconditionally, with no existence check. -/
def switchTab (tabId : Chars) (s : Store) : Store :=
  { s with activeTabId := tabId }

/-- The fresh tab produced by `_addNewTab` as observed right after the
call, given the focused editor: unbound unless an HTML editor is focused,
in which case `_updateActiveTabFromEditor` binds it immediately. -/
def newTabFor (ed : Option EditorDoc) (n : Nat) : PreviewTab :=
  match ed with
  | none => { id := mkId n, title := mkTitle n, uri := none, content := [] }
  | some e =>
    if e.languageId = ['h', 't', 'm', 'l'] then
      { id := mkId n, title := basename e.fileName, uri := some e.docUri, content := e.text }
    else { id := mkId n, title := mkTitle n, uri := none, content := [] }

/-- `_closeTab`: remove the tab with the given id if present; if it was
active, activate the left neighbour `max(0, index - 1)` of the remaining
sequence, or create a fresh tab when none remain. -/
def closeTab (tabId : Chars) (ed : Option EditorDoc) (s : Store) : Store :=
  let idx := s.tabs.findIdx (fun t => t.id == tabId)
  if idx < s.tabs.length then
    let rest := s.tabs.eraseIdx idx
    if s.activeTabId == tabId then
      if rest.isEmpty then
        addNewTab ed { s with tabs := rest }
      else
        { s with tabs := rest,
                 activeTabId := (rest.getD (idx - 1) { id := [], title := [], uri := none, content := [] }).id }
    else { s with tabs := rest }
  else s

/-- The store produced by the constructor (which calls `_addNewTab` once),
given the editor focused at construction time. -/
def initStore (ed : Option EditorDoc) : Store :=
  addNewTab ed { tabs := [], activeTabId := [], tabCounter := 0 }

/-- The session-store operations of the spec: `createTab`, `switchTab`,
`closeTab`, and the Sync Scheduler's bind-and-update (realised in the code
by `_updateActiveTabFromEditor`). Creation and closing read the focused
editor because `_addNewTab` calls `_updateActiveTabFromEditor`. -/
inductive StoreOp where
  | create (ed : Option EditorDoc)
  | switch (tabId : Chars)
  | close (tabId : Chars) (ed : Option EditorDoc)
  | bind (ed : Option EditorDoc)
deriving DecidableEq

/-- Apply one operation to the store. -/
def applyOp (s : Store) : StoreOp → Store
  | .create ed => addNewTab ed s
  | .switch tabId => switchTab tabId s
  | .close tabId ed => closeTab tabId ed s
  | .bind ed => updateActiveTabFromEditor ed s

/-- Run a sequence of operations. -/
def runOps (s : Store) (ops : List StoreOp) : Store := ops.foldl applyOp s

/-- The ids of the tabs currently in the store. -/
def storeIds (s : Store) : List Chars := s.tabs.map (fun t => t.id)

/-- An operation is well-aimed when any `switchTab` argument names an
existing tab (the UI only offers ids of rendered tabs). -/
def goodOp (s : Store) : StoreOp → Bool
  | .switch tabId => storeIds s |>.contains tabId
  | _ => true

/-- Every `switchTab` in the sequence names a tab existing at that point. -/
def validOps : Store → List StoreOp → Bool
  | _, [] => true
  | s, op :: ops => goodOp s op && validOps (applyOp s op) ops

/-- The store invariant of the spec: non-empty tab list and an active id
that names an existing tab. -/
def storeInv (s : Store) : Prop :=
  s.tabs ≠ [] ∧ s.activeTabId ∈ storeIds s

instance (s : Store) : Decidable (storeInv s) := by unfold storeInv; infer_instance

/-- Ids freshly generated by one operation (mirrors exactly the `_addNewTab`
call sites: `create`, and the empty-remainder branch of `_closeTab`). -/
def createdBy (s : Store) : StoreOp → List Chars
  | .create _ => [mkId (s.tabCounter + 1)]
  | .close tabId _ =>
    let idx := s.tabs.findIdx (fun t => t.id == tabId)
    if idx < s.tabs.length && s.activeTabId == tabId && (s.tabs.eraseIdx idx).isEmpty then
      [mkId (s.tabCounter + 1)]
    else []
  | _ => []

/-- Run a sequence of operations while recording every id ever generated. -/
def runOpsH : Store → List Chars → List StoreOp → Store × List Chars
  | s, h, [] => (s, h)
  | s, h, op :: ops => runOpsH (applyOp s op) (h ++ createdBy s op) ops

/-! ### Debounce timer and disposal (constructor lines 42-52, `dispose`) -/

/-- The panel state relevant to the debounce scheduler: the store, whether
the constructor-local `timeout` handle holds an un-cleared pending timer,
and whether the event subscriptions in `_disposables` are still live. -/
structure PanelState where
  store : Store
  timerArmed : Bool
  subscribed : Bool
  disposed : Bool
deriving DecidableEq

/-- Host events hitting the panel: a text change in the focused document,
`dispose()`, and the expiry of the armed `setTimeout` (which reads the
editor focused at expiry time). -/
inductive PanelEvent where
  | change
  | dispose
  | timerFire (ed : Option EditorDoc)
deriving DecidableEq

/-- One event step, translated from the source:
* `change`: the `onDidChangeTextDocument` handler (only while its
  subscription is live) clears any previous timer and arms a new one;
* `dispose`: `dispose()` disposes the panel and pops `_disposables`,
  but never calls `clearTimeout` — the pending timer stays armed;
* `timerFire`: an armed timer runs `_updateActiveTabFromEditor`. -/
def panelStep (p : PanelState) : PanelEvent → PanelState
  | .change => if p.subscribed then { p with timerArmed := true } else p
  | .dispose => { p with subscribed := false, disposed := true }
  | .timerFire ed =>
    if p.timerArmed then
      { p with store := updateActiveTabFromEditor ed p.store, timerArmed := false }
    else p

/-- Run a list of panel events. -/
def panelRun (p : PanelState) (evs : List PanelEvent) : PanelState := evs.foldl panelStep p

/-- The panel right after the constructor ran with editor `ed` focused. -/
def initPanel (ed : Option EditorDoc) : PanelState :=
  { store := initStore ed, timerArmed := false, subscribed := true, disposed := false }

/-! ### Decimal rendering and id freshness -/

/-- Decode a decimal character list back to a number. -/
def unDigits (cs : Chars) : Nat := cs.foldl (fun a c => a * 10 + (c.toNat - 48)) 0

/-- The default tab used only to totalise the JavaScript array indexing
`this._tabs[Math.max(0, index - 1)]` (provably never consulted). -/
def padTab : PreviewTab := { id := [], title := [], uri := none, content := [] }

/-! ### Resource resolver: `_convertResourcePaths`

The three global regex replacements are modelled as left-to-right scanners
over character lists.  Case-insensitive literal matching (`i` flag) is
`ciEq`; the lazy groups `[^>]*?`, `.*?\.css`, `.*?` and `[^>]*?>` are the
scanners `findHref`/`findScriptSrc`, `scanCss`, `scanToQuote` and `findGt`,
which extend the group one character at a time exactly as the backtracking
engine does; the negative lookahead `(?!http|https:\/\/|\/\/|data:)` is
`isAbsRef` (since `https://` starts with `http`, the alternation
effectively blocks `http`, `//` and `data:`). -/

/-- ASCII lower-casing on code points, the effect of the regex `i` flag. -/
def lcn (c : Char) : Nat := if 65 ≤ c.toNat ∧ c.toNat ≤ 90 then c.toNat + 32 else c.toNat

/-- Case-insensitive character comparison. -/
def ciEq (a b : Char) : Bool := lcn a == lcn b

/-- The regex `\s` class (ASCII part). -/
def isWs (c : Char) : Bool :=
  c == ' ' || c == '\t' || c == '\n' || c == '\r' || c == Char.ofNat 11 || c == Char.ofNat 12

/-- The regex class of quote characters. -/
def isQuoteCh (c : Char) : Bool := c == '"' || c == '\''

/-- Match a literal pattern case-insensitively at the head, returning the
actual matched characters and the remainder. -/
def stripCI : Chars → Chars → Option (Chars × Chars)
  | [], l => some ([], l)
  | _ :: _, [] => none
  | p :: ps, c :: cs =>
    if ciEq c p then
      match stripCI ps cs with
      | some (m, r) => some (c :: m, r)
      | none => none
    else none

/-- Does the literal pattern match case-insensitively at the head? -/
def startsWithCI (p l : Chars) : Bool := (stripCI p l).isSome

def linkPat : Chars := ['<', 'l', 'i', 'n', 'k']

def scriptPat : Chars := ['<', 's', 'c', 'r', 'i', 'p', 't']

def hrefPat : Chars := ['h', 'r', 'e', 'f', '=']

def srcPat : Chars := ['s', 'r', 'c', '=']

def httpPat : Chars := ['h', 't', 't', 'p']

def slashSlashPat : Chars := ['/', '/']

def dataPat : Chars := ['d', 'a', 't', 'a', ':']

/-- The negative lookahead `(?!http|https:\/\/|\/\/|data:)` succeeds when
this is false. -/
def isAbsRef (l : Chars) : Bool :=
  startsWithCI httpPat l || startsWithCI slashSlashPat l || startsWithCI dataPat l

/-- Head test for the lazy group `.*?\.css` followed by `["']`: spell out
`.css` (any case) directly followed by a quote. Returns the four matched
characters, the closing quote and the remainder. -/
def checkCssQuote : Chars → Option (Chars × Char × Chars)
  | c1 :: c2 :: c3 :: c4 :: c5 :: r =>
    if ciEq c1 '.' && ciEq c2 'c' && ciEq c3 's' && ciEq c4 's' && isQuoteCh c5 then
      some ([c1, c2, c3, c4], c5, r)
    else none
  | _ => none

/-- The lazy group `(.*?\.css)["']`: the shortest newline-free prefix that
ends in `.css` (any case) directly followed by a quote. -/
def scanCss : Chars → Option (Chars × Char × Chars)
  | [] => none
  | c :: cs =>
    match checkCssQuote (c :: cs) with
    | some (g4, q, r) => some (g4, q, r)
    | none =>
      if c == '\n' then none
      else
        match scanCss cs with
        | some (g, q, r) => some (c :: g, q, r)
        | none => none

/-- The lazy group `(.*?)["']`: the shortest newline-free prefix followed
by a quote. -/
def scanToQuote : Chars → Option (Chars × Char × Chars)
  | [] => none
  | c :: cs =>
    if isQuoteCh c then some ([], c, cs)
    else if c == '\n' then none
    else
      match scanToQuote cs with
      | some (g, q, r) => some (c :: g, q, r)
      | none => none

/-- The trailing `([^>]*?)>`: the characters before the first `>` and the
remainder after it. -/
def findGt : Chars → Option (Chars × Chars)
  | [] => none
  | c :: cs =>
    if c == '>' then some ([], cs)
    else
      match findGt cs with
      | some (g, r) => some (c :: g, r)
      | none => none

/-- Try to complete, at the head, the part of the `<link ...>` pattern
beginning at `href=`: literal `href=`, a quote, the negative lookahead,
the lazy `.css` group, a quote, and `([^>]*?)>`. Returns
(matched text, css-path group, remainder after the match). -/
def tryHrefAt (l : Chars) : Option (Chars × Chars × Chars) :=
  match stripCI hrefPat l with
  | none => none
  | some (m5, rest1) =>
    match rest1 with
    | [] => none
    | q :: r =>
      if isQuoteCh q && !(isAbsRef r) then
        match scanCss r with
        | none => none
        | some (g, q2, r2) =>
          match findGt r2 with
          | none => none
          | some (g3, rest) => some (m5 ++ q :: (g ++ q2 :: (g3 ++ ['>'])), g, rest)
      else none

/-- The lazy `([^>]*?)` before `href=`: scan forward (never across `>`)
for the first position where the rest of the pattern completes. -/
def findHref : Chars → Option (Chars × Chars × Chars)
  | [] => none
  | c :: cs =>
    match tryHrefAt (c :: cs) with
    | some (m, g, rest) => some (m, g, rest)
    | none =>
      if c == '>' then none
      else
        match findHref cs with
        | some (m, g, rest) => some (c :: m, g, rest)
        | none => none

/-- One attempted match of the CSS-inlining regex
`<link\s+([^>]*?)href=["'](?!http|https:\/\/|\/\/|data:)(.*?\.css)["']([^>]*?)>`
at the head of the input. Returns (whole matched text, css path, rest). -/
def matchLinkAt (l : Chars) : Option (Chars × Chars × Chars) :=
  match stripCI linkPat l with
  | none => none
  | some (m5, r0) =>
    let sp := List.span isWs r0
    if sp.1.isEmpty then none
    else
      match findHref sp.2 with
      | none => none
      | some (m, g, rest) => some (m5 ++ sp.1 ++ m, g, rest)

/-- Try to complete, at the head, the part of the script pattern beginning
at `src=`. Returns (matched text, src group, `([^>]*?)` group, rest). -/
def tryScriptSrcAt (l : Chars) : Option (Chars × Chars × Chars × Chars) :=
  match stripCI srcPat l with
  | none => none
  | some (m4, rest1) =>
    match rest1 with
    | [] => none
    | q :: r =>
      if isQuoteCh q && !(isAbsRef r) then
        match scanToQuote r with
        | none => none
        | some (g, q2, r2) =>
          match findGt r2 with
          | none => none
          | some (g3, rest) => some (m4 ++ q :: (g ++ q2 :: (g3 ++ ['>'])), g, g3, rest)
      else none

/-- The lazy `([^>]*?)` before `src=` inside a script element. Returns
(group-1 text, matched text from `src=`, src group, group-3 text, rest). -/
def findScriptSrc : Chars → Option (Chars × Chars × Chars × Chars × Chars)
  | [] => none
  | c :: cs =>
    match tryScriptSrcAt (c :: cs) with
    | some (m, g, g3, rest) => some ([], m, g, g3, rest)
    | none =>
      if c == '>' then none
      else
        match findScriptSrc cs with
        | some (g1, m, g, g3, rest) => some (c :: g1, m, g, g3, rest)
        | none => none

/-- One attempted match of the script-inlining regex
`<script\s+([^>]*?)src=["'](?!http|https:\/\/|\/\/|data:)(.*?)["']([^>]*?)>`
at the head. Returns (whole matched text, group 1, src path, group 3, rest). -/
def matchScriptAt (l : Chars) : Option (Chars × Chars × Chars × Chars × Chars) :=
  match stripCI scriptPat l with
  | none => none
  | some (m7, r0) =>
    let sp := List.span isWs r0
    if sp.1.isEmpty then none
    else
      match findScriptSrc sp.2 with
      | none => none
      | some (g1, m, g, g3, rest) => some (m7 ++ sp.1 ++ (g1 ++ m), g1, g, g3, rest)

/-- One attempted match of the generic rewrite regex
`src=["'](?!http|https:\/\/|\/\/|data:)(.*?)["']` at the head.
Returns (src path group, rest after the closing quote). -/
def trySrcAt (l : Chars) : Option (Chars × Chars) :=
  match stripCI srcPat l with
  | none => none
  | some (_, rest1) =>
    match rest1 with
    | [] => none
    | q :: r =>
      if isQuoteCh q && !(isAbsRef r) then
        match scanToQuote r with
        | none => none
        | some (g, _, r2) => some (g, r2)
      else none

/-- `path.join(documentDir, p)` (host primitive; used only as the lookup
key into the filesystem and webview mappers). -/
def joinPath (dir p : Chars) : Chars := dir ++ '/' :: p

def styleOpenChars : Chars := ['<', 's', 't', 'y', 'l', 'e', '>']

def styleCloseChars : Chars := ['<', '/', 's', 't', 'y', 'l', 'e', '>']

def scriptOpenSp : Chars := ['<', 's', 'c', 'r', 'i', 'p', 't', ' ']

def scriptCloseChars : Chars := ['<', '/', 's', 'c', 'r', 'i', 'p', 't', '>']

def srcEqQuote : Chars := ['s', 'r', 'c', '=', '"']

/-- Pass 1 (fuelled): inline CSS files. On a match, if the resolved file
exists its content replaces the match as `<style>…</style>`; otherwise the
original matched text is kept. Scanning resumes after the match. -/
def cssPassF (fs : Chars → Option Chars) (dir : Chars) : Nat → Chars → Chars
  | 0, l => l
  | _ + 1, [] => []
  | f + 1, c :: cs =>
    match matchLinkAt (c :: cs) with
    | some (m, g, rest) =>
      (match fs (joinPath dir g) with
       | some content => styleOpenChars ++ content ++ styleCloseChars
       | none => m) ++ cssPassF fs dir f rest
    | none => c :: cssPassF fs dir f cs

/-- Pass 1 of `_convertResourcePaths`. -/
def cssPass (fs : Chars → Option Chars) (dir : Chars) (l : Chars) : Chars :=
  cssPassF fs dir l.length l

/-- Pass 2 (fuelled): rewrite every relative `src=["']…["']` to
`src="<webview uri>"` using the host mapper `w`; no existence check. -/
def srcPassF (w : Chars → Chars) (dir : Chars) : Nat → Chars → Chars
  | 0, l => l
  | _ + 1, [] => []
  | f + 1, c :: cs =>
    match trySrcAt (c :: cs) with
    | some (g, rest) => (srcEqQuote ++ w (joinPath dir g) ++ ['"']) ++ srcPassF w dir f rest
    | none => c :: srcPassF w dir f cs

/-- Pass 2 of `_convertResourcePaths`. -/
def srcPass (w : Chars → Chars) (dir : Chars) (l : Chars) : Chars :=
  srcPassF w dir l.length l

/-- Pass 3 (fuelled): inline scripts whose (remaining) relative `src`
resolves to an existing file, rebuilding the open tag as
`<script ${g1}${g3}>content</script>`; otherwise keep the original text. -/
def scriptPassF (fs : Chars → Option Chars) (dir : Chars) : Nat → Chars → Chars
  | 0, l => l
  | _ + 1, [] => []
  | f + 1, c :: cs =>
    match matchScriptAt (c :: cs) with
    | some (m, g1, g, g3, rest) =>
      (match fs (joinPath dir g) with
       | some content => scriptOpenSp ++ g1 ++ g3 ++ '>' :: (content ++ scriptCloseChars)
       | none => m) ++ scriptPassF fs dir f rest
    | none => c :: scriptPassF fs dir f cs

/-- Pass 3 of `_convertResourcePaths`. -/
def scriptPass (fs : Chars → Option Chars) (dir : Chars) (l : Chars) : Chars :=
  scriptPassF fs dir l.length l

/-- `_convertResourcePaths`: the three passes in source order (CSS
inlining, then generic `src` rewriting, then script inlining), with the
webview mapper `w` and filesystem `fs` supplied by the host. -/
def convertResourcePaths (w : Chars → Chars) (fs : Chars → Option Chars) (dir : Chars)
    (html : Chars) : Chars :=
  scriptPass fs dir (srcPass w dir (cssPass fs dir html))

/-- No case-insensitive occurrence of `pat` starts inside `l` when `l` is
followed by `cont` (the scanners inspect at most `pat.length` characters,
so only a prefix of the continuation matters). -/
def noHit (pat cont : Chars) : Chars → Bool
  | [] => true
  | c :: cs => !(startsWithCI pat ((c :: cs) ++ cont)) && noHit pat cont cs

/-- Head check used by the idempotence claim: if a quoted `href=` or
`src=` reference starts here, its value is absolute
(`http`…, `//`, `data:`). -/
def refHeadOk (l : Chars) : Bool :=
  (match stripCI hrefPat l with
   | some (_, q :: r) => !(isQuoteCh q) || isAbsRef r
   | some (_, []) => true
   | none => true) &&
  (match stripCI srcPat l with
   | some (_, q :: r) => !(isQuoteCh q) || isAbsRef r
   | some (_, []) => true
   | none => true)

/-- Every quoted `href=`/`src=` reference anywhere in the document is
absolute. -/
def refsOk : Chars → Bool
  | [] => true
  | c :: cs => refHeadOk (c :: cs) && refsOk cs

/-- Case-sensitive prefix test. -/
def startsWithExact : Chars → Chars → Bool
  | [], _ => true
  | _ :: _, [] => false
  | p :: ps, c :: cs => p == c && startsWithExact ps cs

/-- Case-sensitive substring occurrence. -/
def containsSub (pat : Chars) : Chars → Bool
  | [] => pat.isEmpty
  | c :: cs => startsWithExact pat (c :: cs) || containsSub pat cs

/-- The `<link …>` element shape used by the CSS-inlining claims:
`<link ` ++ attrs ++ `href="` ++ path ++ `"` ++ attrs2 ++ `>`. -/
def linkElt (a1 path a2 : Chars) : Chars :=
  linkPat ++ ' ' :: (a1 ++ hrefPat ++ '"' :: (path ++ '"' :: (a2 ++ ['>'])))

/-- The `<script src="path">` element shape used by the script claims. -/
def scriptElt (path : Chars) : Chars :=
  scriptPat ++ ' ' :: (srcPat ++ '"' :: (path ++ ['"', '>']))

/-- Head of a list is not whitespace (or the list is empty); keeps the
`\s+` run of the element literal to exactly the one written space. -/
def headNotWs : Chars → Prop
  | [] => True
  | c :: _ => isWs c = false

/-! ### Demo fixtures for witnesses and counterexamples -/

/-- A focused HTML editor document, as the host would present it. -/
def demoEd : EditorDoc :=
  { languageId := ['h', 't', 'm', 'l'],
    docUri := ['/', 'w', '/', 'a', '.', 'h', 't', 'm', 'l'],
    fileName := ['/', 'w', '/', 'a', '.', 'h', 't', 'm', 'l'],
    text := ['<', 'p', '>', 'h', 'i', '<', '/', 'p', '>'] }

/-- An unbound tab with a given number, as `_addNewTab` creates it. -/
def plainTab (n : Nat) : PreviewTab :=
  { id := mkId n, title := mkTitle n, uri := none, content := [] }

/-- A three-tab store (scenario A of the spec). -/
def demoStore3 : Store :=
  { tabs := [plainTab 1, plainTab 2, plainTab 3], activeTabId := mkId 2, tabCounter := 3 }

/-- A one-tab store (scenario B of the spec). -/
def demoStore1 : Store :=
  { tabs := [plainTab 1], activeTabId := mkId 1, tabCounter := 1 }

/-- Does the optional editor hold an HTML document? -/
def isHtmlEd : Option EditorDoc → Bool
  | none => false
  | some e => e.languageId == ['h', 't', 'm', 'l']

/-- The `.css` file-name suffix. -/
def cssExt : Chars := ['.', 'c', 's', 's']

instance : ∀ l : Chars, Decidable (headNotWs l)
  | [] => isTrue trivial
  | _ :: _ => inferInstanceAs (Decidable (_ = false))

/-- Document directory used by the resolver witnesses. -/
def demoDir : Chars := ['/', 'd']

/-- Text before the element in the witness documents. -/
def demoPre : Chars := ['A', 'B', ' ']

/-- `rel="stylesheet" ` — the canonical link attributes. -/
def demoA1 : Chars :=
  ['r', 'e', 'l', '=', '"', 's', 't', 'y', 'l', 'e', 's', 'h', 'e', 'e', 't', '"', ' ']

/-- `style` — the css path stem (`style` + `.css`). -/
def demoP0 : Chars := ['s', 't', 'y', 'l', 'e']

/-- Text after the element in the witness documents. -/
def demoPost : Chars := [' ', 'E', 'n', 'd']

/-- The on-disk stylesheet text of spec scenario C. -/
def demoCssBody : Chars :=
  ['b', 'o', 'd', 'y', '{', 'c', 'o', 'l', 'o', 'r', ':', 'r', 'e', 'd', '}']

/-- A filesystem holding exactly `style.css` in the document directory. -/
def demoFs : Chars → Option Chars :=
  fun k => if k = joinPath demoDir (demoP0 ++ cssExt) then some demoCssBody else none

/-- A host webview-URI mapper producing `https://wv` + path. -/
def demoWv : Chars → Chars :=
  fun p => ['h', 't', 't', 'p', 's', ':', '/', '/', 'w', 'v'] ++ p

/-- `<link href="//a.css"><script src="data:x">` — a document whose two
references are both absolute. -/
def demoAbsDoc : Chars :=
  ['<', 'l', 'i', 'n', 'k', ' ', 'h', 'r', 'e', 'f', '=', '"', '/', '/', 'a', '.', 'c', 's',
   's', '"', '>', '<', 's', 'c', 'r', 'i', 'p', 't', ' ', 's', 'r', 'c', '=', '"', 'd', 'a',
   't', 'a', ':', 'x', '"', '>']

/-- `app.js` — the relative script path of the script-element claims. -/
def demoJsPath : Chars := ['a', 'p', 'p', '.', 'j', 's']

/-- The on-disk script text. -/
def demoJsBody : Chars := ['c', 'a', 'l', 'l', 'A', '(', ')']

/-- A filesystem holding exactly `app.js` in the document directory. -/
def demoFs2 : Chars → Option Chars :=
  fun k => if k = joinPath demoDir demoJsPath then some demoJsBody else none

theorem natCharsF_ext : ∀ f₁ f₂ n, n < f₁ → n < f₂ → natCharsF f₁ n = natCharsF f₂ n := by
  intro f₁
  induction f₁ with
  | zero => intro f₂ n h; omega
  | succ f ih =>
    intro f₂ n h₁ h₂
    match f₂, h₂ with
    | f' + 1, _ =>
      simp only [natCharsF]
      by_cases h10 : n < 10
      · simp [h10]
      · have hd : n / 10 < n := Nat.div_lt_self (by omega) (by omega)
        simp only [h10, if_false]
        rw [ih f' (n / 10) (by omega) (by omega)]

theorem natChars_lt : natChars = fun n => if n < 10 then [digitChar10 n] else natChars (n / 10) ++ [digitChar10 (n % 10)] := by
  funext n
  by_cases h10 : n < 10
  · simp [natChars, natCharsF, h10]
  · have hd : n / 10 < n := Nat.div_lt_self (by omega) (by omega)
    simp only [natChars, natCharsF, h10, if_false]
    rw [natCharsF_ext n (n / 10 + 1) (n / 10) (by omega) (by omega)]
    simp only [natCharsF]

theorem unDigits_append_last (cs : Chars) (c : Char) :
    unDigits (cs ++ [c]) = unDigits cs * 10 + (c.toNat - 48) := by
  simp [unDigits, List.foldl_append]

theorem digitChar10_toNat (d : Nat) (h : d < 10) : (digitChar10 d).toNat = 48 + d := by
  interval_cases d <;> decide

/-- Decimal rendering round-trips through decoding, hence is injective. -/
theorem unDigits_natChars (n : Nat) : unDigits (natChars n) = n := by
  induction n using Nat.strong_induction_on with
  | _ n ih =>
    rw [natChars_lt]
    by_cases h10 : n < 10
    · simp [h10, unDigits, digitChar10_toNat n h10]
    · have hd : n / 10 < n := Nat.div_lt_self (by omega) (by omega)
      simp only [h10, if_false]
      rw [unDigits_append_last, ih (n / 10) hd, digitChar10_toNat (n % 10) (by omega)]
      omega

theorem natChars_injective : Function.Injective natChars := by
  intro a b h
  have := unDigits_natChars a
  rw [h, unDigits_natChars b] at this
  omega

theorem mkId_injective : Function.Injective mkId := by
  intro a b h
  exact natChars_injective (List.append_cancel_left h)

/-! ### Store lemmas -/

theorem updateFirst_map_of_id (p : PreviewTab → Bool) (f : PreviewTab → PreviewTab)
    (hf : ∀ t, (f t).id = t.id) :
    ∀ l : List PreviewTab, (updateFirst p f l).map (fun t => t.id) = l.map (fun t => t.id) := by
  intro l
  induction l with
  | nil => rfl
  | cons t ts ih =>
    by_cases h : p t
    · simp [updateFirst, h, hf]
    · simp [updateFirst, h, ih]

theorem updateFirst_append_last (p : PreviewTab → Bool) (f : PreviewTab → PreviewTab)
    (l : List PreviewTab) (t : PreviewTab) (hl : ∀ x ∈ l, p x = false) (ht : p t = true) :
    updateFirst p f (l ++ [t]) = l ++ [f t] := by
  induction l with
  | nil => simp [updateFirst, ht]
  | cons x xs ih =>
    have hx : p x = false := hl x (by simp)
    simp only [List.cons_append, updateFirst, hx, Bool.false_eq_true, if_false, List.cons.injEq,
      true_and]
    exact ih (fun y hy => hl y (by simp [hy]))

theorem bind_fields (ed : Option EditorDoc) (s : Store) :
    storeIds (updateActiveTabFromEditor ed s) = storeIds s ∧
    (updateActiveTabFromEditor ed s).activeTabId = s.activeTabId ∧
    (updateActiveTabFromEditor ed s).tabCounter = s.tabCounter := by
  match ed with
  | none => exact ⟨rfl, rfl, rfl⟩
  | some e =>
    by_cases h : e.languageId = ['h', 't', 'm', 'l']
    · refine ⟨?_, ?_, ?_⟩ <;>
        simp [updateActiveTabFromEditor, h, storeIds, updateFirst_map_of_id]
    · simp [updateActiveTabFromEditor, h, storeIds]

theorem addNewTab_eq (ed : Option EditorDoc) (s : Store) :
    addNewTab ed s =
      updateActiveTabFromEditor ed
        ⟨s.tabs ++ [⟨mkId (s.tabCounter + 1), mkTitle (s.tabCounter + 1), none, []⟩],
          mkId (s.tabCounter + 1), s.tabCounter + 1⟩ := rfl

theorem addNewTab_fields (ed : Option EditorDoc) (s : Store) :
    storeIds (addNewTab ed s) = storeIds s ++ [mkId (s.tabCounter + 1)] ∧
    (addNewTab ed s).activeTabId = mkId (s.tabCounter + 1) ∧
    (addNewTab ed s).tabCounter = s.tabCounter + 1 := by
  rw [addNewTab_eq]
  obtain ⟨h1, h2, h3⟩ := bind_fields ed
    ⟨s.tabs ++ [⟨mkId (s.tabCounter + 1), mkTitle (s.tabCounter + 1), none, []⟩],
      mkId (s.tabCounter + 1), s.tabCounter + 1⟩
  refine ⟨?_, ?_, ?_⟩
  · rw [h1]; simp [storeIds]
  · rw [h2]
  · rw [h3]

theorem storeInv_addNewTab (ed : Option EditorDoc) (s : Store) : storeInv (addNewTab ed s) := by
  obtain ⟨h1, h2, h3⟩ := addNewTab_fields ed s
  constructor
  · intro hcon
    have : storeIds (addNewTab ed s) = [] := by simp [storeIds, hcon]
    rw [h1] at this
    simp at this
  · rw [h1, h2]; simp

theorem storeInv_initStore (ed : Option EditorDoc) : storeInv (initStore ed) :=
  storeInv_addNewTab ed _

theorem storeInv_bind (ed : Option EditorDoc) (s : Store) (h : storeInv s) :
    storeInv (updateActiveTabFromEditor ed s) := by
  obtain ⟨h1, h2, h3⟩ := bind_fields ed s
  constructor
  · intro hcon
    have : storeIds (updateActiveTabFromEditor ed s) = [] := by simp [storeIds, hcon]
    rw [h1] at this
    exact h.1 (by simpa [storeIds] using this)
  · rw [h1, h2]; exact h.2

theorem storeInv_switch (tabId : Chars) (s : Store) (hmem : tabId ∈ storeIds s) (h : storeInv s) :
    storeInv (switchTab tabId s) := ⟨h.1, hmem⟩

theorem closeTab_not_found (tabId : Chars) (ed : Option EditorDoc) (s : Store)
    (h : ¬ s.tabs.findIdx (fun t => t.id == tabId) < s.tabs.length) :
    closeTab tabId ed s = s := by
  simp only [closeTab, h, if_false]

theorem closeTab_found_inactive (tabId : Chars) (ed : Option EditorDoc) (s : Store)
    (h : s.tabs.findIdx (fun t => t.id == tabId) < s.tabs.length)
    (hact : ¬ s.activeTabId = tabId) :
    closeTab tabId ed s =
      { s with tabs := s.tabs.eraseIdx (s.tabs.findIdx (fun t => t.id == tabId)) } := by
  simp only [closeTab, h, if_true, beq_iff_eq, hact, if_false]

theorem closeTab_found_active_nonempty (tabId : Chars) (ed : Option EditorDoc) (s : Store)
    (h : s.tabs.findIdx (fun t => t.id == tabId) < s.tabs.length)
    (hact : s.activeTabId = tabId)
    (hne : ¬ s.tabs.eraseIdx (s.tabs.findIdx (fun t => t.id == tabId)) = []) :
    closeTab tabId ed s =
      { s with
        tabs := s.tabs.eraseIdx (s.tabs.findIdx (fun t => t.id == tabId)),
        activeTabId :=
          ((s.tabs.eraseIdx (s.tabs.findIdx (fun t => t.id == tabId))).getD
            (s.tabs.findIdx (fun t => t.id == tabId) - 1) padTab).id } := by
  simp only [closeTab, h, if_true, beq_iff_eq, hact, List.isEmpty_iff, hne, if_false]
  rfl

theorem closeTab_found_active_empty (tabId : Chars) (ed : Option EditorDoc) (s : Store)
    (h : s.tabs.findIdx (fun t => t.id == tabId) < s.tabs.length)
    (hact : s.activeTabId = tabId)
    (hemp : s.tabs.eraseIdx (s.tabs.findIdx (fun t => t.id == tabId)) = []) :
    closeTab tabId ed s = addNewTab ed { s with tabs := [] } := by
  simp only [closeTab, h, if_true, beq_iff_eq, hact, List.isEmpty_iff, hemp, if_true]

theorem tabs_decomp (l : List PreviewTab) (i : Nat) (h : i < l.length) :
    l = l.take i ++ l[i] :: l.drop (i + 1) := by
  conv_lhs => rw [← List.take_append_drop i l]
  rw [List.drop_eq_getElem_cons h]

theorem findIdx_id_eq (tabId : Chars) (l : List PreviewTab)
    (h : l.findIdx (fun t => t.id == tabId) < l.length) :
    (l[l.findIdx (fun t => t.id == tabId)]).id = tabId := by
  have := @List.findIdx_getElem _ (fun t => t.id == tabId) l h
  simpa using this

theorem mem_eraseIdx_ids (l : List PreviewTab) (i : Nat) (hi : i < l.length) (a : Chars)
    (hmem : a ∈ l.map (fun t => t.id)) (hne : a ≠ (l[i]).id) :
    a ∈ (l.eraseIdx i).map (fun t => t.id) := by
  rw [List.eraseIdx_eq_take_drop_succ, List.map_append]
  conv at hmem => rw [tabs_decomp l i hi]
  rw [List.map_append, List.map_cons] at hmem
  rcases List.mem_append.mp hmem with h1 | h2
  · exact List.mem_append.mpr (Or.inl h1)
  · rcases List.mem_cons.mp h2 with h3 | h4
    · exact absurd h3 hne
    · exact List.mem_append.mpr (Or.inr h4)

theorem storeInv_close (tabId : Chars) (ed : Option EditorDoc) (s : Store) (h : storeInv s) :
    storeInv (closeTab tabId ed s) := by
  by_cases hidx : s.tabs.findIdx (fun t => t.id == tabId) < s.tabs.length
  · set i := s.tabs.findIdx (fun t => t.id == tabId) with hi
    by_cases hact : s.activeTabId = tabId
    · by_cases hemp : s.tabs.eraseIdx i = []
      · rw [closeTab_found_active_empty tabId ed s hidx hact hemp]
        exact storeInv_addNewTab ed _
      · rw [closeTab_found_active_nonempty tabId ed s hidx hact hemp]
        have hlen : (s.tabs.eraseIdx i).length = s.tabs.length - 1 := by
          rw [List.length_eraseIdx]; simp [hidx]
        have hlen1 : 0 < (s.tabs.eraseIdx i).length := List.length_pos.mpr hemp
        have hbound : i - 1 < (s.tabs.eraseIdx i).length := by omega
        constructor
        · exact hemp
        · have hgetd : (s.tabs.eraseIdx i).getD (i - 1) padTab = (s.tabs.eraseIdx i)[i - 1] := by
            simp [List.getD_eq_getElem?_getD, List.getElem?_eq_getElem hbound]
          simp only [storeIds, hgetd]
          exact List.mem_map.mpr ⟨_, List.getElem_mem hbound, rfl⟩
    · rw [closeTab_found_inactive tabId ed s hidx hact]
      have hmem : s.activeTabId ∈ (s.tabs.eraseIdx i).map (fun t => t.id) := by
        apply mem_eraseIdx_ids s.tabs i hidx s.activeTabId h.2
        rw [findIdx_id_eq tabId s.tabs hidx]
        exact hact
      have hne' : s.tabs.eraseIdx i ≠ [] := by
        intro hc
        rw [hc] at hmem
        simp at hmem
      exact ⟨hne', hmem⟩
  · rw [closeTab_not_found tabId ed s hidx]
    exact h

theorem storeInv_applyOp (s : Store) (op : StoreOp) (hg : goodOp s op = true) (h : storeInv s) :
    storeInv (applyOp s op) := by
  match op with
  | .create ed => exact storeInv_addNewTab ed s
  | .switch tabId =>
    refine storeInv_switch tabId s ?_ h
    simpa [goodOp] using hg
  | .close tabId ed => exact storeInv_close tabId ed s h
  | .bind ed => exact storeInv_bind ed s h

theorem storeInv_runOps (ops : List StoreOp) (s : Store) (h : storeInv s)
    (hv : validOps s ops = true) : storeInv (runOps s ops) := by
  induction ops generalizing s with
  | nil => exact h
  | cons op ops ih =>
    simp only [validOps, Bool.and_eq_true] at hv
    exact ih (applyOp s op) (storeInv_applyOp s op hv.1 h) hv.2

/-! ### Generated-id history -/

theorem switchTab_tabCounter (tabId : Chars) (s : Store) :
    (switchTab tabId s).tabCounter = s.tabCounter := rfl

theorem histStep (s : Store) (op : StoreOp) (h : List Chars)
    (hh : h = (List.range' 1 s.tabCounter).map mkId) :
    h ++ createdBy s op = (List.range' 1 (applyOp s op).tabCounter).map mkId := by
  match op with
  | .create ed =>
    have hc := (addNewTab_fields ed s).2.2
    simp only [applyOp, hc, createdBy, hh]
    rw [List.range'_concat 1 s.tabCounter]
    simp [Nat.add_comm]
  | .switch tabId =>
    simp [applyOp, createdBy, hh, switchTab_tabCounter]
  | .bind ed =>
    have hc := (bind_fields ed s).2.2
    simp [applyOp, createdBy, hh, hc]
  | .close tabId ed =>
    by_cases hidx : s.tabs.findIdx (fun t => t.id == tabId) < s.tabs.length
    · by_cases hact : s.activeTabId = tabId
      · by_cases hemp : s.tabs.eraseIdx (s.tabs.findIdx (fun t => t.id == tabId)) = []
        · have hc : (applyOp s (.close tabId ed)).tabCounter = s.tabCounter + 1 := by
            show (closeTab tabId ed s).tabCounter = s.tabCounter + 1
            rw [closeTab_found_active_empty tabId ed s hidx hact hemp]
            exact (addNewTab_fields ed _).2.2
          have hcr : createdBy s (.close tabId ed) = [mkId (s.tabCounter + 1)] := by
            simp [createdBy, hidx, hact, hemp]
          rw [hc, hcr, hh, List.range'_concat 1 s.tabCounter]
          simp [Nat.add_comm]
        · have hc : (applyOp s (.close tabId ed)).tabCounter = s.tabCounter := by
            show (closeTab tabId ed s).tabCounter = s.tabCounter
            rw [closeTab_found_active_nonempty tabId ed s hidx hact hemp]
          have hcr : createdBy s (.close tabId ed) = [] := by
            simp [createdBy, hemp]
          rw [hc, hcr, hh, List.append_nil]
      · have hc : (applyOp s (.close tabId ed)).tabCounter = s.tabCounter := by
          show (closeTab tabId ed s).tabCounter = s.tabCounter
          rw [closeTab_found_inactive tabId ed s hidx hact]
        have hcr : createdBy s (.close tabId ed) = [] := by
          simp [createdBy, hact]
        rw [hc, hcr, hh, List.append_nil]
    · have hc : (applyOp s (.close tabId ed)).tabCounter = s.tabCounter := by
        show (closeTab tabId ed s).tabCounter = s.tabCounter
        rw [closeTab_not_found tabId ed s hidx]
      have hcr : createdBy s (.close tabId ed) = [] := by
        simp [createdBy, hidx]
      rw [hc, hcr, hh, List.append_nil]

theorem runOpsH_hist (ops : List StoreOp) (s : Store) (h : List Chars)
    (hh : h = (List.range' 1 s.tabCounter).map mkId) :
    (runOpsH s h ops).2 = (List.range' 1 (runOpsH s h ops).1.tabCounter).map mkId := by
  induction ops generalizing s h with
  | nil => exact hh
  | cons op ops ih =>
    simp only [runOpsH]
    exact ih (applyOp s op) (h ++ createdBy s op) (histStep s op h hh)

/-! ### `_addNewTab` characterisation -/

theorem newTabFor_id (ed : Option EditorDoc) (n : Nat) : (newTabFor ed n).id = mkId n := by
  match ed with
  | none => rfl
  | some e =>
    by_cases h : e.languageId = ['h', 't', 'm', 'l'] <;> simp [newTabFor, h]

theorem addNewTab_spec (ed : Option EditorDoc) (s : Store)
    (hfresh : ∀ t ∈ s.tabs, t.id ≠ mkId (s.tabCounter + 1)) :
    (addNewTab ed s).tabs = s.tabs ++ [newTabFor ed (s.tabCounter + 1)] ∧
    (addNewTab ed s).activeTabId = mkId (s.tabCounter + 1) ∧
    (addNewTab ed s).tabCounter = s.tabCounter + 1 := by
  refine ⟨?_, (addNewTab_fields ed s).2.1, (addNewTab_fields ed s).2.2⟩
  rw [addNewTab_eq]
  match ed with
  | none => rfl
  | some e =>
    by_cases h : e.languageId = ['h', 't', 'm', 'l']
    · simp only [updateActiveTabFromEditor, h, if_true]
      rw [updateFirst_append_last]
      · simp [newTabFor, h]
      · intro x hx
        simpa using hfresh x hx
      · simp
    · simp [updateActiveTabFromEditor, newTabFor, h]

theorem addNewTab_of_empty (ed : Option EditorDoc) (s : Store) (hemp : s.tabs = []) :
    (addNewTab ed s).tabs = [newTabFor ed (s.tabCounter + 1)] ∧
    (addNewTab ed s).activeTabId = mkId (s.tabCounter + 1) ∧
    (addNewTab ed s).tabCounter = s.tabCounter + 1 := by
  have h := addNewTab_spec ed s (by rw [hemp]; simp)
  rw [hemp] at h
  simpa using h

/-! ### Claims about the tab session store -/

/-- Claim C1 (corrected). As stated, the claim fails: `_switchTab` assigns
`activeTabId` unconditionally, so switching to a non-existing id leaves the
active pointer dangling. Amended: provided every `switchTab` call names an
existing tab, every operation (`createTab`, `switchTab`, `closeTab`,
bind-and-update) returns with the tab list non-empty and the active id
naming a tab currently in the list, including the implicit fresh tab
created when the last tab is closed. -/
theorem claim1_store_invariant (ed : Option EditorDoc) (ops : List StoreOp)
    (hv : validOps (initStore ed) ops = true) :
    storeInv (runOps (initStore ed) ops) :=
  storeInv_runOps ops (initStore ed) (storeInv_initStore ed) hv

/-- Witness for C1: a concrete valid operation sequence (create, switch to
an existing tab, close a non-active tab, close the last tab) keeps the
invariant. -/
theorem claim1_store_invariant_witness :
    validOps (initStore none)
        [StoreOp.create none, StoreOp.switch (mkId 1),
          StoreOp.close (mkId 2) none, StoreOp.close (mkId 1) none] = true ∧
    storeInv (runOps (initStore none)
        [StoreOp.create none, StoreOp.switch (mkId 1),
          StoreOp.close (mkId 2) none, StoreOp.close (mkId 1) none]) := by
  constructor
  · decide
  · exact claim1_store_invariant none
      [StoreOp.create none, StoreOp.switch (mkId 1),
        StoreOp.close (mkId 2) none, StoreOp.close (mkId 1) none] (by decide)

/-- Counterexample to C1 as stated: after `switchTab` with an unknown id
(an operation of the claimed set), the active id names no tab in the list. -/
theorem claim1_counterexample :
    ¬ storeInv (runOps (initStore none) [StoreOp.switch ['n', 'o', 'p', 'e']]) := by
  decide

/-- Claim C2 (corrected). As stated, the claim fails: `switchTab` on an
unknown id is not a no-op. Amended: `switchTab(id)` always sets
`activeId := id` — even when no tab with that id exists — and leaves the
tab list and counter unchanged. -/
theorem claim2_switchTab_unconditional (tabId : Chars) (s : Store) :
    (switchTab tabId s).activeTabId = tabId ∧
    (switchTab tabId s).tabs = s.tabs ∧
    (switchTab tabId s).tabCounter = s.tabCounter :=
  ⟨rfl, rfl, rfl⟩

/-- Counterexample to C2 as stated: switching the freshly initialized
store to the non-existing id `nope` changes `activeId` (the claim says it
stays unchanged). -/
theorem claim2_counterexample :
    ¬ (['n', 'o', 'p', 'e'] ∈ storeIds (initStore none)) ∧
    (switchTab ['n', 'o', 'p', 'e'] (initStore none)).activeTabId ≠
      (initStore none).activeTabId := by
  decide

theorem newTabFor_not_html (ed : Option EditorDoc) (n : Nat) (h : isHtmlEd ed = false) :
    newTabFor ed n = plainTab n := by
  match ed with
  | none => rfl
  | some e =>
    have he : ¬ e.languageId = ['h', 't', 'm', 'l'] := by simpa [isHtmlEd] using h
    simp [newTabFor, he, plainTab]

/-- Claim C3 (corrected). `closeTab` on a present id removes the first tab
with that id; if it was active and tabs remain, the new active tab is the
one at index `max(0, i - 1)` of the remaining sequence; if none remain, a
fresh tab is created and made active. As stated the claim fails only in
calling that fresh tab "unbound": `_addNewTab` immediately binds it when
an HTML editor is focused. Amended: the fresh tab is unbound exactly when
no HTML editor is focused at close time. -/
theorem claim3_closeTab_spec (tabId : Chars) (ed : Option EditorDoc) (s : Store)
    (hidx : s.tabs.findIdx (fun t => t.id == tabId) < s.tabs.length) :
    (s.activeTabId ≠ tabId →
      closeTab tabId ed s =
        { s with tabs := s.tabs.eraseIdx (s.tabs.findIdx (fun t => t.id == tabId)) }) ∧
    (s.activeTabId = tabId →
      s.tabs.eraseIdx (s.tabs.findIdx (fun t => t.id == tabId)) ≠ [] →
      closeTab tabId ed s =
        { s with
          tabs := s.tabs.eraseIdx (s.tabs.findIdx (fun t => t.id == tabId)),
          activeTabId :=
            ((s.tabs.eraseIdx (s.tabs.findIdx (fun t => t.id == tabId))).getD
              (s.tabs.findIdx (fun t => t.id == tabId) - 1) padTab).id }) ∧
    (s.activeTabId = tabId →
      s.tabs.eraseIdx (s.tabs.findIdx (fun t => t.id == tabId)) = [] →
      (closeTab tabId ed s).tabs = [newTabFor ed (s.tabCounter + 1)] ∧
      (closeTab tabId ed s).activeTabId = mkId (s.tabCounter + 1) ∧
      (isHtmlEd ed = false → (closeTab tabId ed s).tabs = [plainTab (s.tabCounter + 1)])) := by
  refine ⟨?_, ?_, ?_⟩
  · intro hact
    exact closeTab_found_inactive tabId ed s hidx hact
  · intro hact hne
    exact closeTab_found_active_nonempty tabId ed s hidx hact hne
  · intro hact hemp
    rw [closeTab_found_active_empty tabId ed s hidx hact hemp]
    obtain ⟨h1, h2, _⟩ := addNewTab_of_empty ed { s with tabs := [] } rfl
    refine ⟨h1, h2, ?_⟩
    intro hhtml
    rw [h1, newTabFor_not_html ed _ hhtml]

/-- Witness for C3: scenario A of the spec — tabs `[T1, T2, T3]`, active
`T2`; closing `T2` leaves `[T1, T3]` with `T1` active (left neighbour). -/
theorem claim3_closeTab_spec_witness :
    (closeTab (mkId 2) none demoStore3).tabs = [plainTab 1, plainTab 3] ∧
    (closeTab (mkId 2) none demoStore3).activeTabId = mkId 1 := by
  have h := (claim3_closeTab_spec (mkId 2) none demoStore3 (by decide)).2.1
    (by decide) (by decide)
  rw [h]
  constructor
  · decide
  · decide

/-- Counterexample to C3 as stated: closing the last tab while an HTML
editor is focused yields a single tab that is already bound (its `uri` is
set), not the claimed unbound tab. -/
theorem claim3_counterexample :
    ((closeTab (mkId 1) (some demoEd) demoStore1).tabs.all fun t => t.uri == none) = false ∧
    (closeTab (mkId 1) (some demoEd) demoStore1).tabs.length = 1 := by
  decide

/-- Claim C9 (corrected). `createTab` (`_addNewTab`) always succeeds:
it appends one new tab with the fresh id `tab-N`, makes it active, and
increments the counter. As stated the claim fails in asserting the new tab
is always unbound with placeholder title: `_addNewTab` ends by calling
`_updateActiveTabFromEditor`, which immediately binds the new tab when an
HTML editor is focused. Amended: the new tab is unbound (empty content,
placeholder title `Tab N`) exactly when no HTML editor is focused. -/
theorem claim9_createTab_spec (ed : Option EditorDoc) (s : Store)
    (hfresh : ∀ t ∈ s.tabs, t.id ≠ mkId (s.tabCounter + 1)) :
    (addNewTab ed s).tabs = s.tabs ++ [newTabFor ed (s.tabCounter + 1)] ∧
    (addNewTab ed s).activeTabId = mkId (s.tabCounter + 1) ∧
    (addNewTab ed s).tabCounter = s.tabCounter + 1 ∧
    (isHtmlEd ed = false →
      (addNewTab ed s).tabs = s.tabs ++ [plainTab (s.tabCounter + 1)]) := by
  obtain ⟨h1, h2, h3⟩ := addNewTab_spec ed s hfresh
  refine ⟨h1, h2, h3, ?_⟩
  intro hhtml
  rw [h1, newTabFor_not_html ed _ hhtml]

/-- Witness for C9: creating a tab in the one-tab store with no editor
focused appends the unbound `Tab 2` and makes it active. -/
theorem claim9_createTab_spec_witness :
    (addNewTab none demoStore1).tabs = [plainTab 1, plainTab 2] ∧
    (addNewTab none demoStore1).activeTabId = mkId 2 := by
  have h := claim9_createTab_spec none demoStore1 (by decide)
  exact ⟨by rw [h.1]; decide, h.2.1⟩

/-- Counterexample to C9 as stated: creating a tab while an HTML editor is
focused yields a tab that is bound immediately after the call returns. -/
theorem claim9_counterexample :
    ((addNewTab (some demoEd) (initStore none)).tabs.all fun t => t.uri == none) = false := by
  decide

/-- Claim C10 (confirmed). Closing a present, non-active tab removes
exactly that tab: the remaining tabs keep their order and all fields, and
the active id and counter are untouched. -/
theorem claim10_closeTab_frame (tabId : Chars) (ed : Option EditorDoc) (s : Store)
    (hidx : s.tabs.findIdx (fun t => t.id == tabId) < s.tabs.length)
    (hact : s.activeTabId ≠ tabId) :
    (closeTab tabId ed s).tabs =
      s.tabs.take (s.tabs.findIdx (fun t => t.id == tabId)) ++
        s.tabs.drop (s.tabs.findIdx (fun t => t.id == tabId) + 1) ∧
    (closeTab tabId ed s).activeTabId = s.activeTabId ∧
    (closeTab tabId ed s).tabCounter = s.tabCounter := by
  rw [closeTab_found_inactive tabId ed s hidx hact]
  exact ⟨List.eraseIdx_eq_take_drop_succ _ _, rfl, rfl⟩

/-- Witness for C10: closing non-active `T3` in the three-tab store leaves
`[T1, T2]` with the active id still `T2`. -/
theorem claim10_closeTab_frame_witness :
    (closeTab (mkId 3) none demoStore3).tabs = [plainTab 1, plainTab 2] ∧
    (closeTab (mkId 3) none demoStore3).activeTabId = mkId 2 := by
  have h := claim10_closeTab_frame (mkId 3) none demoStore3 (by decide) (by decide)
  refine ⟨?_, h.2.1⟩
  rw [h.1]
  decide

/-- Claim C8 (confirmed). Along any operation sequence from the
initialized store, the recorded history of every id ever generated (the
initial tab, explicit creations, and implicit creations after closing the
last tab) has no duplicates: ids come from the strictly increasing counter
and are never reused. -/
theorem claim8_ids_distinct (ed : Option EditorDoc) (ops : List StoreOp) :
    ((runOpsH (initStore ed) [mkId 1] ops).2).Nodup := by
  have hc : (initStore ed).tabCounter = 1 := (addNewTab_fields ed _).2.2
  have hinit : [mkId 1] = (List.range' 1 (initStore ed).tabCounter).map mkId := by
    rw [hc]
    rfl
  have h := runOpsH_hist ops (initStore ed) [mkId 1] hinit
  rw [h]
  exact List.Nodup.map mkId_injective (List.nodup_range' ..)

/-- Claim C4 (code bug). The spec requires that disposing the session
cancels the pending debounce timer so that no update fires after disposal.
In the source, the `timeout` handle is a constructor-local variable and
`dispose()` never calls `clearTimeout`, so a timer armed before `dispose()`
stays armed and its callback still mutates the active tab afterwards:
after `[change, dispose]` the panel is disposed with the timer armed, and
the subsequent expiry changes the store. -/
theorem claim4_update_after_dispose :
    (panelRun (initPanel none) [PanelEvent.change, PanelEvent.dispose]).disposed = true ∧
    (panelRun (initPanel none) [PanelEvent.change, PanelEvent.dispose]).timerArmed = true ∧
    (panelStep (panelRun (initPanel none) [PanelEvent.change, PanelEvent.dispose])
        (PanelEvent.timerFire (some demoEd))).store ≠
      (panelRun (initPanel none) [PanelEvent.change, PanelEvent.dispose]).store := by
  decide

/-! ### Basic scanner lemmas -/

theorem char_toNat_inj (a b : Char) (h : a.toNat = b.toNat) : a = b := by
  apply Char.ext
  exact UInt32.toNat.inj h

theorem ciEq_refl (c : Char) : ciEq c c = true := by
  simp [ciEq]

theorem ciEq_sym_false (c p : Char) (hp : p.toNat < 65) (hne : c ≠ p) : ciEq c p = false := by
  simp only [ciEq, beq_eq_false_iff_ne, ne_eq, lcn]
  have hple : ¬ (65 ≤ p.toNat ∧ p.toNat ≤ 90) := by omega
  rw [if_neg hple]
  by_cases hc : 65 ≤ c.toNat ∧ c.toNat ≤ 90
  · rw [if_pos hc]
    omega
  · rw [if_neg hc]
    intro hcon
    exact hne (char_toNat_inj c p hcon)

theorem stripCI_refl (p : Chars) : ∀ r : Chars, stripCI p (p ++ r) = some (p, r) := by
  induction p with
  | nil => intro r; rfl
  | cons c cs ih =>
    intro r
    simp [stripCI, ciEq_refl, ih r]

theorem stripCI_some (p : Chars) :
    ∀ (l m r : Chars), stripCI p l = some (m, r) → l = m ++ r ∧ m.length = p.length := by
  induction p with
  | nil =>
    intro l m r h
    simp only [stripCI, Option.some.injEq, Prod.mk.injEq] at h
    rw [← h.1, ← h.2]
    exact ⟨rfl, rfl⟩
  | cons c cs ih =>
    intro l m r h
    match l with
    | [] => exact absurd h (by simp [stripCI])
    | x :: xs =>
      simp only [stripCI] at h
      by_cases hx : ciEq x c = true
      · rw [if_pos hx] at h
        cases hs : stripCI cs xs with
        | none => rw [hs] at h; exact absurd h (by simp)
        | some pr =>
          rw [hs] at h
          obtain ⟨m', r'⟩ := pr
          simp only [Option.some.injEq, Prod.mk.injEq] at h
          obtain ⟨h1, h2⟩ := h
          obtain ⟨hd, hl⟩ := ih xs m' r' hs
          rw [← h1, ← h2]
          constructor
          · rw [hd]; rfl
          · simp [hl]
      · rw [if_neg hx] at h
        exact absurd h (by simp)

theorem startsWithCI_cons (p c : Char) (ps cs : Chars) :
    startsWithCI (p :: ps) (c :: cs) = (ciEq c p && startsWithCI ps cs) := by
  simp only [startsWithCI, stripCI]
  by_cases h : ciEq c p = true
  · rw [if_pos h, h]
    cases hs : stripCI ps cs with
    | none => simp [hs]
    | some pr => simp [hs]
  · rw [if_neg h]
    simp only [Bool.false_eq_true] at h
    simp [h]

theorem stripCI_none_of (p l : Chars) (h : startsWithCI p l = false) : stripCI p l = none := by
  cases hs : stripCI p l with
  | none => rfl
  | some pr => rw [startsWithCI, hs] at h; simp at h

theorem startsWithCI_take (p : Chars) : ∀ l : Chars,
    startsWithCI p (l.take p.length) = startsWithCI p l := by
  induction p with
  | nil => intro l; rfl
  | cons c cs ih =>
    intro l
    match l with
    | [] => rfl
    | x :: xs =>
      rw [List.length_cons, List.take_succ_cons, startsWithCI_cons, startsWithCI_cons, ih xs]

theorem take_congr_append (s : Chars) : ∀ (k : Nat) (r r' : Chars),
    r.take k = r'.take k → (s ++ r).take k = (s ++ r').take k := by
  induction s with
  | nil => intro k r r' h; simpa using h
  | cons c cs ih =>
    intro k r r' h
    match k with
    | 0 => rfl
    | k' + 1 =>
      simp only [List.cons_append, List.take_succ_cons]
      have hk : r.take k' = r'.take k' := by
        have := congrArg (fun l => List.take k' l) h
        simpa [List.take_take] using this
      rw [ih k' r r' hk]

theorem startsWithCI_append_congr (p s r r' : Chars) (h : r.take p.length = r'.take p.length) :
    startsWithCI p (s ++ r) = startsWithCI p (s ++ r') := by
  rw [← startsWithCI_take p (s ++ r), ← startsWithCI_take p (s ++ r'),
    take_congr_append s p.length r r' h]

theorem startsWithCI_extend (p : Chars) : ∀ l r : Chars,
    startsWithCI p l = true → startsWithCI p (l ++ r) = true := by
  induction p with
  | nil => intro l r _; rfl
  | cons c cs ih =>
    intro l r h
    match l with
    | [] => rw [startsWithCI] at h; simp [stripCI] at h
    | x :: xs =>
      rw [startsWithCI_cons] at h
      rw [List.cons_append, startsWithCI_cons]
      simp only [Bool.and_eq_true] at h ⊢
      exact ⟨h.1, ih xs r h.2⟩

/-! ### Matcher decompositions and failure conditions -/

theorem matchLinkAt_none_of (l : Chars) (h : startsWithCI linkPat l = false) :
    matchLinkAt l = none := by
  rw [matchLinkAt, stripCI_none_of linkPat l h]

theorem matchScriptAt_none_of (l : Chars) (h : startsWithCI scriptPat l = false) :
    matchScriptAt l = none := by
  rw [matchScriptAt, stripCI_none_of scriptPat l h]

theorem trySrcAt_none_of (l : Chars) (h : startsWithCI srcPat l = false) :
    trySrcAt l = none := by
  rw [trySrcAt, stripCI_none_of srcPat l h]

theorem scanCss_decomp : ∀ l g r (q : Char), scanCss l = some (g, q, r) → l = g ++ q :: r := by
  intro l
  induction l with
  | nil => intro g r q h; exact absurd h (by simp [scanCss])
  | cons c cs ih =>
    intro g r q h
    rw [scanCss] at h
    cases hc : checkCssQuote (c :: cs) with
    | some pr =>
      rw [hc] at h
      obtain ⟨g4, q', r'⟩ := pr
      simp only [Option.some.injEq, Prod.mk.injEq] at h
      obtain ⟨h1, h2, h3⟩ := h
      match c :: cs, hc with
      | c1 :: c2 :: c3 :: c4 :: c5 :: rr, hc =>
        simp only [checkCssQuote] at hc
        by_cases hcond : (ciEq c1 '.' && ciEq c2 'c' && ciEq c3 's' && ciEq c4 's' &&
            isQuoteCh c5) = true
        · rw [if_pos hcond] at hc
          simp only [Option.some.injEq, Prod.mk.injEq] at hc
          obtain ⟨hg4, hq, hr⟩ := hc
          rw [← h1, ← h2, ← h3, ← hg4, ← hq, ← hr]
          rfl
        · rw [if_neg hcond] at hc
          exact absurd hc (by simp)
    | none =>
      rw [hc] at h
      by_cases hn : (c == '\n') = true
      · rw [if_pos hn] at h; exact absurd h (by simp)
      · rw [if_neg hn] at h
        cases hs : scanCss cs with
        | none => rw [hs] at h; exact absurd h (by simp)
        | some pr =>
          rw [hs] at h
          obtain ⟨g', q', r'⟩ := pr
          simp only [Option.some.injEq, Prod.mk.injEq] at h
          obtain ⟨h1, h2, h3⟩ := h
          rw [← h1, ← h2, ← h3]
          have := ih g' r' q' hs
          simp [this]

theorem scanToQuote_decomp : ∀ l g r (q : Char),
    scanToQuote l = some (g, q, r) → l = g ++ q :: r := by
  intro l
  induction l with
  | nil => intro g r q h; exact absurd h (by simp [scanToQuote])
  | cons c cs ih =>
    intro g r q h
    rw [scanToQuote] at h
    by_cases hq : isQuoteCh c = true
    · rw [if_pos hq] at h
      simp only [Option.some.injEq, Prod.mk.injEq] at h
      obtain ⟨h1, h2, h3⟩ := h
      rw [← h1, ← h2, ← h3]
      rfl
    · rw [if_neg hq] at h
      by_cases hn : (c == '\n') = true
      · rw [if_pos hn] at h; exact absurd h (by simp)
      · rw [if_neg hn] at h
        cases hs : scanToQuote cs with
        | none => rw [hs] at h; exact absurd h (by simp)
        | some pr =>
          rw [hs] at h
          obtain ⟨g', q', r'⟩ := pr
          simp only [Option.some.injEq, Prod.mk.injEq] at h
          obtain ⟨h1, h2, h3⟩ := h
          rw [← h1, ← h2, ← h3]
          have := ih g' r' q' hs
          simp [this]

theorem findGt_decomp : ∀ l g r, findGt l = some (g, r) → l = g ++ '>' :: r := by
  intro l
  induction l with
  | nil => intro g r h; exact absurd h (by simp [findGt])
  | cons c cs ih =>
    intro g r h
    rw [findGt] at h
    by_cases hc : (c == '>') = true
    · rw [if_pos hc] at h
      simp only [Option.some.injEq, Prod.mk.injEq] at h
      obtain ⟨h1, h2⟩ := h
      rw [← h1, ← h2]
      simp only [beq_iff_eq] at hc
      rw [hc]
      rfl
    · rw [if_neg hc] at h
      cases hs : findGt cs with
      | none => rw [hs] at h; exact absurd h (by simp)
      | some pr =>
        rw [hs] at h
        obtain ⟨g', r'⟩ := pr
        simp only [Option.some.injEq, Prod.mk.injEq] at h
        obtain ⟨h1, h2⟩ := h
        rw [← h1, ← h2]
        have := ih g' r' hs
        simp [this]

theorem tryHrefAt_decomp (l m g rest : Chars) (h : tryHrefAt l = some (m, g, rest)) :
    l = m ++ rest ∧ m ≠ [] := by
  rw [tryHrefAt] at h
  cases hs : stripCI hrefPat l with
  | none => rw [hs] at h; exact absurd h (by simp)
  | some pr =>
    rw [hs] at h
    obtain ⟨m5, rest1⟩ := pr
    obtain ⟨hl5, hlen5⟩ := stripCI_some hrefPat l m5 rest1 hs
    match rest1, h with
    | q :: r, h =>
      simp only at h
      by_cases hcond : (isQuoteCh q && !isAbsRef r) = true
      · rw [if_pos hcond] at h
        cases hsc : scanCss r with
        | none => rw [hsc] at h; exact absurd h (by simp)
        | some pr2 =>
          rw [hsc] at h
          obtain ⟨g', q2, r2⟩ := pr2
          dsimp only at h
          cases hgt : findGt r2 with
          | none => rw [hgt] at h; exact absurd h (by simp)
          | some pr3 =>
            rw [hgt] at h
            obtain ⟨g3, rest'⟩ := pr3
            simp only [Option.some.injEq, Prod.mk.injEq] at h
            obtain ⟨h1, h2, h3⟩ := h
            have hr := scanCss_decomp r g' r2 q2 hsc
            have hr2 := findGt_decomp r2 g3 rest' hgt
            constructor
            · rw [hl5, ← h1, ← h3, hr, hr2]
              simp
            · rw [← h1]
              have : m5 ≠ [] := by
                intro hcon
                rw [hcon] at hlen5
                simp [hrefPat] at hlen5
              simp [this]
      · rw [if_neg hcond] at h
        exact absurd h (by simp)

theorem findHref_decomp : ∀ l m g rest, findHref l = some (m, g, rest) →
    l = m ++ rest ∧ m ≠ [] := by
  intro l
  induction l with
  | nil => intro m g rest h; exact absurd h (by simp [findHref])
  | cons c cs ih =>
    intro m g rest h
    rw [findHref] at h
    cases ht : tryHrefAt (c :: cs) with
    | some pr =>
      rw [ht] at h
      obtain ⟨m', g', rest'⟩ := pr
      simp only [Option.some.injEq, Prod.mk.injEq] at h
      obtain ⟨h1, h2, h3⟩ := h
      rw [← h1, ← h3]
      exact tryHrefAt_decomp (c :: cs) m' g' rest' ht
    | none =>
      rw [ht] at h
      by_cases hc : (c == '>') = true
      · rw [if_pos hc] at h; exact absurd h (by simp)
      · rw [if_neg hc] at h
        cases hs : findHref cs with
        | none => rw [hs] at h; exact absurd h (by simp)
        | some pr =>
          rw [hs] at h
          obtain ⟨m', g', rest'⟩ := pr
          simp only [Option.some.injEq, Prod.mk.injEq] at h
          obtain ⟨h1, h2, h3⟩ := h
          obtain ⟨hd, _⟩ := ih m' g' rest' hs
          rw [← h1, ← h3]
          constructor
          · rw [hd]; rfl
          · simp

theorem matchLinkAt_decomp (l m g rest : Chars) (h : matchLinkAt l = some (m, g, rest)) :
    l = m ++ rest ∧ m ≠ [] := by
  rw [matchLinkAt] at h
  cases hs : stripCI linkPat l with
  | none => rw [hs] at h; exact absurd h (by simp)
  | some pr =>
    rw [hs] at h
    obtain ⟨m5, r0⟩ := pr
    obtain ⟨hl5, hlen5⟩ := stripCI_some linkPat l m5 r0 hs
    simp only at h
    by_cases hws : (List.span isWs r0).1.isEmpty = true
    · rw [if_pos hws] at h; exact absurd h (by simp)
    · rw [if_neg hws] at h
      cases hf : findHref (List.span isWs r0).2 with
      | none => rw [hf] at h; exact absurd h (by simp)
      | some pr2 =>
        rw [hf] at h
        obtain ⟨m', g', rest'⟩ := pr2
        simp only [Option.some.injEq, Prod.mk.injEq] at h
        obtain ⟨h1, h2, h3⟩ := h
        obtain ⟨hd, _⟩ := findHref_decomp (List.span isWs r0).2 m' g' rest' hf
        have hspan : (List.span isWs r0).1 ++ (List.span isWs r0).2 = r0 := by
          simp [List.span_eq_take_drop, List.takeWhile_append_dropWhile]
        constructor
        · calc l = m5 ++ ((List.span isWs r0).1 ++ (List.span isWs r0).2) := by
                rw [hspan]; exact hl5
            _ = m5 ++ ((List.span isWs r0).1 ++ (m' ++ rest')) := by rw [hd]
            _ = (m5 ++ (List.span isWs r0).1 ++ m') ++ rest' := by simp
            _ = m ++ rest := by rw [h1, h3]
        · rw [← h1]
          have : m5 ≠ [] := by
            intro hcon
            rw [hcon] at hlen5
            simp [linkPat] at hlen5
          simp [this]

theorem tryScriptSrcAt_decomp (l m g g3 rest : Chars)
    (h : tryScriptSrcAt l = some (m, g, g3, rest)) : l = m ++ rest ∧ m ≠ [] := by
  rw [tryScriptSrcAt] at h
  cases hs : stripCI srcPat l with
  | none => rw [hs] at h; exact absurd h (by simp)
  | some pr =>
    rw [hs] at h
    obtain ⟨m4, rest1⟩ := pr
    obtain ⟨hl4, hlen4⟩ := stripCI_some srcPat l m4 rest1 hs
    match rest1, h with
    | q :: r, h =>
      simp only at h
      by_cases hcond : (isQuoteCh q && !isAbsRef r) = true
      · rw [if_pos hcond] at h
        cases hsc : scanToQuote r with
        | none => rw [hsc] at h; exact absurd h (by simp)
        | some pr2 =>
          rw [hsc] at h
          obtain ⟨g', q2, r2⟩ := pr2
          dsimp only at h
          cases hgt : findGt r2 with
          | none => rw [hgt] at h; exact absurd h (by simp)
          | some pr3 =>
            rw [hgt] at h
            obtain ⟨g3', rest'⟩ := pr3
            simp only [Option.some.injEq, Prod.mk.injEq] at h
            obtain ⟨h1, h2, h3, h4⟩ := h
            have hr := scanToQuote_decomp r g' r2 q2 hsc
            have hr2 := findGt_decomp r2 g3' rest' hgt
            constructor
            · rw [hl4, ← h1, ← h4, hr, hr2]
              simp
            · rw [← h1]
              have : m4 ≠ [] := by
                intro hcon
                rw [hcon] at hlen4
                simp [srcPat] at hlen4
              simp [this]
      · rw [if_neg hcond] at h
        exact absurd h (by simp)

theorem findScriptSrc_decomp : ∀ l g1 m g g3 rest, findScriptSrc l = some (g1, m, g, g3, rest) →
    l = (g1 ++ m) ++ rest ∧ g1 ++ m ≠ [] := by
  intro l
  induction l with
  | nil => intro g1 m g g3 rest h; exact absurd h (by simp [findScriptSrc])
  | cons c cs ih =>
    intro g1 m g g3 rest h
    rw [findScriptSrc] at h
    cases ht : tryScriptSrcAt (c :: cs) with
    | some pr =>
      rw [ht] at h
      obtain ⟨m', g', g3', rest'⟩ := pr
      simp only [Option.some.injEq, Prod.mk.injEq] at h
      obtain ⟨h1, h2, h3, h4, h5⟩ := h
      obtain ⟨hd, hne⟩ := tryScriptSrcAt_decomp (c :: cs) m' g' g3' rest' ht
      rw [← h1, ← h2, ← h5]
      constructor
      · simpa using hd
      · simpa using hne
    | none =>
      rw [ht] at h
      by_cases hc : (c == '>') = true
      · rw [if_pos hc] at h; exact absurd h (by simp)
      · rw [if_neg hc] at h
        cases hs : findScriptSrc cs with
        | none => rw [hs] at h; exact absurd h (by simp)
        | some pr =>
          rw [hs] at h
          obtain ⟨g1', m', g', g3', rest'⟩ := pr
          simp only [Option.some.injEq, Prod.mk.injEq] at h
          obtain ⟨h1, h2, h3, h4, h5⟩ := h
          obtain ⟨hd, _⟩ := ih g1' m' g' g3' rest' hs
          rw [← h1, ← h2, ← h5]
          constructor
          · simp only [List.cons_append, List.append_assoc] at hd ⊢
            rw [hd]
          · simp

theorem matchScriptAt_decomp (l m g1 g g3 rest : Chars)
    (h : matchScriptAt l = some (m, g1, g, g3, rest)) : l = m ++ rest ∧ m ≠ [] := by
  rw [matchScriptAt] at h
  cases hs : stripCI scriptPat l with
  | none => rw [hs] at h; exact absurd h (by simp)
  | some pr =>
    rw [hs] at h
    obtain ⟨m7, r0⟩ := pr
    obtain ⟨hl7, hlen7⟩ := stripCI_some scriptPat l m7 r0 hs
    simp only at h
    by_cases hws : (List.span isWs r0).1.isEmpty = true
    · rw [if_pos hws] at h; exact absurd h (by simp)
    · rw [if_neg hws] at h
      cases hf : findScriptSrc (List.span isWs r0).2 with
      | none => rw [hf] at h; exact absurd h (by simp)
      | some pr2 =>
        rw [hf] at h
        obtain ⟨g1', m', g', g3', rest'⟩ := pr2
        simp only [Option.some.injEq, Prod.mk.injEq] at h
        obtain ⟨h1, h2, h3, h4, h5⟩ := h
        obtain ⟨hd, _⟩ := findScriptSrc_decomp (List.span isWs r0).2 g1' m' g' g3' rest' hf
        have hspan : (List.span isWs r0).1 ++ (List.span isWs r0).2 = r0 := by
          simp [List.span_eq_take_drop, List.takeWhile_append_dropWhile]
        constructor
        · calc l = m7 ++ ((List.span isWs r0).1 ++ (List.span isWs r0).2) := by
                rw [hspan]; exact hl7
            _ = m7 ++ ((List.span isWs r0).1 ++ ((g1' ++ m') ++ rest')) := by rw [hd]
            _ = (m7 ++ (List.span isWs r0).1 ++ (g1' ++ m')) ++ rest' := by simp
            _ = m ++ rest := by rw [h1, h5]
        · rw [← h1]
          have : m7 ≠ [] := by
            intro hcon
            rw [hcon] at hlen7
            simp [scriptPat] at hlen7
          simp [this]

theorem trySrcAt_decomp (l g rest : Chars) (h : trySrcAt l = some (g, rest)) :
    ∃ m4 q q2, l = m4 ++ q :: (g ++ q2 :: rest) ∧ m4.length = 4 := by
  rw [trySrcAt] at h
  cases hs : stripCI srcPat l with
  | none => rw [hs] at h; exact absurd h (by simp)
  | some pr =>
    rw [hs] at h
    obtain ⟨m4, rest1⟩ := pr
    obtain ⟨hl4, hlen4⟩ := stripCI_some srcPat l m4 rest1 hs
    match rest1, h with
    | q :: r, h =>
      simp only at h
      by_cases hcond : (isQuoteCh q && !isAbsRef r) = true
      · rw [if_pos hcond] at h
        cases hsc : scanToQuote r with
        | none => rw [hsc] at h; exact absurd h (by simp)
        | some pr2 =>
          rw [hsc] at h
          obtain ⟨g', q2, r2⟩ := pr2
          simp only [Option.some.injEq, Prod.mk.injEq] at h
          obtain ⟨h1, h2⟩ := h
          have hr := scanToQuote_decomp r g' r2 q2 hsc
          refine ⟨m4, q, q2, ?_, by simpa [srcPat] using hlen4⟩
          rw [hl4, hr, h1, h2]
      · rw [if_neg hcond] at h
        exact absurd h (by simp)

theorem trySrcAt_rest_lt (l g rest : Chars) (h : trySrcAt l = some (g, rest)) :
    rest.length < l.length := by
  obtain ⟨m4, q, q2, hl, hm4⟩ := trySrcAt_decomp l g rest h
  rw [hl]
  simp
  omega

theorem matchLinkAt_rest_lt (l m g rest : Chars) (h : matchLinkAt l = some (m, g, rest)) :
    rest.length < l.length := by
  obtain ⟨hl, hm⟩ := matchLinkAt_decomp l m g rest h
  rw [hl]
  simp [List.length_append]
  exact List.length_pos.mpr hm

theorem matchScriptAt_rest_lt (l m g1 g g3 rest : Chars)
    (h : matchScriptAt l = some (m, g1, g, g3, rest)) : rest.length < l.length := by
  obtain ⟨hl, hm⟩ := matchScriptAt_decomp l m g1 g g3 rest h
  rw [hl]
  simp [List.length_append]
  exact List.length_pos.mpr hm

/-! ### Fuel irrelevance and single-step laws for the passes -/

theorem cssPassF_ext (fs : Chars → Option Chars) (dir : Chars) :
    ∀ f₁ f₂ l, l.length ≤ f₁ → l.length ≤ f₂ → cssPassF fs dir f₁ l = cssPassF fs dir f₂ l := by
  intro f₁
  induction f₁ with
  | zero =>
    intro f₂ l h₁ h₂
    have : l = [] := by
      cases l with
      | nil => rfl
      | cons c cs => simp at h₁
    subst this
    match f₂ with
    | 0 => rfl
    | f + 1 => rfl
  | succ f ih =>
    intro f₂ l h₁ h₂
    match l with
    | [] =>
      match f₂ with
      | 0 => rfl
      | g + 1 => rfl
    | c :: cs =>
      match f₂, h₂ with
      | g + 1, h₂ =>
        simp only [cssPassF]
        cases hm : matchLinkAt (c :: cs) with
        | some pr =>
          obtain ⟨m, gg, rest⟩ := pr
          have hlt := matchLinkAt_rest_lt (c :: cs) m gg rest hm
          simp only [List.length_cons] at h₁ h₂ hlt
          dsimp only
          rw [ih g rest (by omega) (by omega)]
        | none =>
          simp only [List.length_cons] at h₁ h₂
          dsimp only
          rw [ih g cs (by omega) (by omega)]

theorem cssPass_cons_none (fs : Chars → Option Chars) (dir : Chars) (c : Char) (cs : Chars)
    (h : matchLinkAt (c :: cs) = none) :
    cssPass fs dir (c :: cs) = c :: cssPass fs dir cs := by
  simp only [cssPass, List.length_cons, cssPassF, h]

theorem cssPass_match (fs : Chars → Option Chars) (dir : Chars) (l m g rest : Chars)
    (h : matchLinkAt l = some (m, g, rest)) :
    cssPass fs dir l =
      (match fs (joinPath dir g) with
       | some content => styleOpenChars ++ content ++ styleCloseChars
       | none => m) ++ cssPass fs dir rest := by
  match l with
  | [] => exact absurd h (by simp [matchLinkAt, linkPat, stripCI])
  | c :: cs =>
    have hlt := matchLinkAt_rest_lt (c :: cs) m g rest h
    simp only [List.length_cons] at hlt
    simp only [cssPass, List.length_cons, cssPassF, h]
    rw [cssPassF_ext fs dir cs.length rest.length rest (by omega) (by omega)]

theorem srcPassF_ext (w : Chars → Chars) (dir : Chars) :
    ∀ f₁ f₂ l, l.length ≤ f₁ → l.length ≤ f₂ → srcPassF w dir f₁ l = srcPassF w dir f₂ l := by
  intro f₁
  induction f₁ with
  | zero =>
    intro f₂ l h₁ h₂
    have : l = [] := by
      cases l with
      | nil => rfl
      | cons c cs => simp at h₁
    subst this
    match f₂ with
    | 0 => rfl
    | f + 1 => rfl
  | succ f ih =>
    intro f₂ l h₁ h₂
    match l with
    | [] =>
      match f₂ with
      | 0 => rfl
      | g + 1 => rfl
    | c :: cs =>
      match f₂, h₂ with
      | g + 1, h₂ =>
        simp only [srcPassF]
        cases hm : trySrcAt (c :: cs) with
        | some pr =>
          obtain ⟨gg, rest⟩ := pr
          have hlt := trySrcAt_rest_lt (c :: cs) gg rest hm
          simp only [List.length_cons] at h₁ h₂ hlt
          dsimp only
          rw [ih g rest (by omega) (by omega)]
        | none =>
          simp only [List.length_cons] at h₁ h₂
          dsimp only
          rw [ih g cs (by omega) (by omega)]

theorem srcPass_cons_none (w : Chars → Chars) (dir : Chars) (c : Char) (cs : Chars)
    (h : trySrcAt (c :: cs) = none) :
    srcPass w dir (c :: cs) = c :: srcPass w dir cs := by
  simp only [srcPass, List.length_cons, srcPassF, h]

theorem srcPass_match (w : Chars → Chars) (dir : Chars) (l g rest : Chars)
    (h : trySrcAt l = some (g, rest)) :
    srcPass w dir l = (srcEqQuote ++ w (joinPath dir g) ++ ['"']) ++ srcPass w dir rest := by
  match l with
  | [] => exact absurd h (by simp [trySrcAt, srcPat, stripCI])
  | c :: cs =>
    have hlt := trySrcAt_rest_lt (c :: cs) g rest h
    simp only [List.length_cons] at hlt
    simp only [srcPass, List.length_cons, srcPassF, h]
    rw [srcPassF_ext w dir cs.length rest.length rest (by omega) (by omega)]

theorem scriptPassF_ext (fs : Chars → Option Chars) (dir : Chars) :
    ∀ f₁ f₂ l, l.length ≤ f₁ → l.length ≤ f₂ →
      scriptPassF fs dir f₁ l = scriptPassF fs dir f₂ l := by
  intro f₁
  induction f₁ with
  | zero =>
    intro f₂ l h₁ h₂
    have : l = [] := by
      cases l with
      | nil => rfl
      | cons c cs => simp at h₁
    subst this
    match f₂ with
    | 0 => rfl
    | f + 1 => rfl
  | succ f ih =>
    intro f₂ l h₁ h₂
    match l with
    | [] =>
      match f₂ with
      | 0 => rfl
      | g + 1 => rfl
    | c :: cs =>
      match f₂, h₂ with
      | g + 1, h₂ =>
        simp only [scriptPassF]
        cases hm : matchScriptAt (c :: cs) with
        | some pr =>
          obtain ⟨m, g1, gg, g3, rest⟩ := pr
          have hlt := matchScriptAt_rest_lt (c :: cs) m g1 gg g3 rest hm
          simp only [List.length_cons] at h₁ h₂ hlt
          dsimp only
          rw [ih g rest (by omega) (by omega)]
        | none =>
          simp only [List.length_cons] at h₁ h₂
          dsimp only
          rw [ih g cs (by omega) (by omega)]

theorem scriptPass_cons_none (fs : Chars → Option Chars) (dir : Chars) (c : Char) (cs : Chars)
    (h : matchScriptAt (c :: cs) = none) :
    scriptPass fs dir (c :: cs) = c :: scriptPass fs dir cs := by
  simp only [scriptPass, List.length_cons, scriptPassF, h]

theorem scriptPass_match (fs : Chars → Option Chars) (dir : Chars) (l m g1 g g3 rest : Chars)
    (h : matchScriptAt l = some (m, g1, g, g3, rest)) :
    scriptPass fs dir l =
      (match fs (joinPath dir g) with
       | some content => scriptOpenSp ++ g1 ++ g3 ++ '>' :: (content ++ scriptCloseChars)
       | none => m) ++ scriptPass fs dir rest := by
  match l with
  | [] => exact absurd h (by simp [matchScriptAt, scriptPat, stripCI])
  | c :: cs =>
    have hlt := matchScriptAt_rest_lt (c :: cs) m g1 g g3 rest h
    simp only [List.length_cons] at hlt
    simp only [scriptPass, List.length_cons, scriptPassF, h]
    rw [scriptPassF_ext fs dir cs.length rest.length rest (by omega) (by omega)]

/-! ### Emission through match-free regions -/

theorem noHit_head (pat cont : Chars) (c : Char) (cs : Chars)
    (h : noHit pat cont (c :: cs) = true) :
    startsWithCI pat ((c :: cs) ++ cont) = false ∧ noHit pat cont cs = true := by
  simp only [noHit, Bool.and_eq_true, Bool.not_eq_true'] at h
  exact h

theorem startsWithCI_false_of_noHit (pat cont : Chars) (c : Char) (cs t : Chars)
    (hc : cont.take pat.length = t.take pat.length)
    (h : noHit pat cont (c :: cs) = true) :
    startsWithCI pat ((c :: cs) ++ t) = false := by
  rw [startsWithCI_append_congr pat (c :: cs) t cont hc.symm]
  exact (noHit_head pat cont c cs h).1

theorem cssPass_append (fs : Chars → Option Chars) (dir : Chars) (l t : Chars)
    (h : noHit linkPat (t.take linkPat.length) l = true) :
    cssPass fs dir (l ++ t) = l ++ cssPass fs dir t := by
  induction l with
  | nil => rfl
  | cons c cs ih =>
    have hsw := startsWithCI_false_of_noHit linkPat (t.take linkPat.length) c cs t
      (by rw [List.take_take]; simp) h
    have hnone := matchLinkAt_none_of ((c :: cs) ++ t) hsw
    rw [List.cons_append, cssPass_cons_none fs dir c (cs ++ t) (by simpa using hnone)]
    rw [ih (noHit_head _ _ _ _ h).2]
    rfl

theorem cssPass_of_noHit (fs : Chars → Option Chars) (dir : Chars) (l : Chars)
    (h : noHit linkPat [] l = true) :
    cssPass fs dir l = l := by
  have := cssPass_append fs dir l [] (by simpa using h)
  have h0 : cssPass fs dir ([] : Chars) = [] := rfl
  simpa [h0] using this

theorem srcPass_append (w : Chars → Chars) (dir : Chars) (l t : Chars)
    (h : noHit srcPat (t.take srcPat.length) l = true) :
    srcPass w dir (l ++ t) = l ++ srcPass w dir t := by
  induction l with
  | nil => rfl
  | cons c cs ih =>
    have hsw := startsWithCI_false_of_noHit srcPat (t.take srcPat.length) c cs t
      (by rw [List.take_take]; simp) h
    have hnone := trySrcAt_none_of ((c :: cs) ++ t) hsw
    rw [List.cons_append, srcPass_cons_none w dir c (cs ++ t) (by simpa using hnone)]
    rw [ih (noHit_head _ _ _ _ h).2]
    rfl

theorem srcPass_of_noHit (w : Chars → Chars) (dir : Chars) (l : Chars)
    (h : noHit srcPat [] l = true) :
    srcPass w dir l = l := by
  have := srcPass_append w dir l [] (by simpa using h)
  have h0 : srcPass w dir ([] : Chars) = [] := rfl
  simpa [h0] using this

theorem scriptPass_append (fs : Chars → Option Chars) (dir : Chars) (l t : Chars)
    (h : noHit scriptPat (t.take scriptPat.length) l = true) :
    scriptPass fs dir (l ++ t) = l ++ scriptPass fs dir t := by
  induction l with
  | nil => rfl
  | cons c cs ih =>
    have hsw := startsWithCI_false_of_noHit scriptPat (t.take scriptPat.length) c cs t
      (by rw [List.take_take]; simp) h
    have hnone := matchScriptAt_none_of ((c :: cs) ++ t) hsw
    rw [List.cons_append, scriptPass_cons_none fs dir c (cs ++ t) (by simpa using hnone)]
    rw [ih (noHit_head _ _ _ _ h).2]
    rfl

theorem scriptPass_of_noHit (fs : Chars → Option Chars) (dir : Chars) (l : Chars)
    (h : noHit scriptPat [] l = true) :
    scriptPass fs dir l = l := by
  have := scriptPass_append fs dir l [] (by simpa using h)
  have h0 : scriptPass fs dir ([] : Chars) = [] := rfl
  simpa [h0] using this

/-! ### Successful matches on the canonical element shapes -/

theorem tryHrefAt_none_of (l : Chars) (h : startsWithCI hrefPat l = false) :
    tryHrefAt l = none := by
  rw [tryHrefAt, stripCI_none_of hrefPat l h]

theorem tryScriptSrcAt_none_of (l : Chars) (h : startsWithCI srcPat l = false) :
    tryScriptSrcAt l = none := by
  rw [tryScriptSrcAt, stripCI_none_of srcPat l h]

theorem checkCssQuote_none (l : Chars) (h : ∀ x ∈ l.take 5, isQuoteCh x = false) :
    checkCssQuote l = none := by
  match l with
  | [] => rfl
  | [_] => rfl
  | [_, _] => rfl
  | [_, _, _] => rfl
  | [_, _, _, _] => rfl
  | c1 :: c2 :: c3 :: c4 :: c5 :: r =>
    have h5 : isQuoteCh c5 = false := h c5 (by simp [List.take])
    simp [checkCssQuote, h5]

theorem findGt_of_free (a2 : Chars) (T : Chars) (h : '>' ∉ a2) :
    findGt (a2 ++ '>' :: T) = some (a2, T) := by
  induction a2 with
  | nil => rfl
  | cons c cs ih =>
    have hc : ¬ (c == '>') = true := by
      simp only [beq_iff_eq]
      intro hcon
      exact h (by simp [hcon])
    rw [List.cons_append, findGt, if_neg hc, ih (fun hm => h (by simp [hm]))]

theorem scanToQuote_path (u : Chars) (rest : Chars)
    (hq : ∀ c ∈ u, isQuoteCh c = false) (hn : '\n' ∉ u) :
    scanToQuote (u ++ '"' :: rest) = some (u, '"', rest) := by
  induction u with
  | nil => rfl
  | cons c cs ih =>
    have hqc : isQuoteCh c = false := hq c (by simp)
    have hnc : ¬ (c == '\n') = true := by
      simp only [beq_iff_eq]
      intro hcon
      exact hn (by simp [hcon])
    rw [List.cons_append, scanToQuote]
    rw [if_neg (by simp [hqc]), if_neg hnc,
      ih (fun x hx => hq x (by simp [hx])) (fun hm => hn (by simp [hm]))]

theorem scanCss_path (p0 : Chars) (rest : Chars)
    (hq : ∀ c ∈ p0 ++ cssExt, isQuoteCh c = false) (hn : '\n' ∉ p0 ++ cssExt) :
    scanCss (p0 ++ (cssExt ++ '"' :: rest)) = some (p0 ++ cssExt, '"', rest) := by
  induction p0 with
  | nil => rfl
  | cons c cs ih =>
    have hck : checkCssQuote (c :: (cs ++ (cssExt ++ '"' :: rest))) = none := by
      apply checkCssQuote_none
      intro x hx
      apply hq x
      have h4 : 4 ≤ ((cs ++ cssExt)).length := by simp [cssExt]
      rw [List.take_succ_cons] at hx
      rcases List.mem_cons.mp hx with hx1 | hx2
      · simp [hx1]
      · rw [← List.append_assoc, List.take_append_of_le_length h4] at hx2
        have : x ∈ (cs ++ cssExt) := List.mem_of_mem_take hx2
        simp only [List.cons_append, List.mem_cons]
        right
        exact this
    have hnc : ¬ (c == '\n') = true := by
      simp only [beq_iff_eq]
      intro hcon
      exact hn (by simp [hcon])
    have hq' : ∀ x ∈ cs ++ cssExt, isQuoteCh x = false := by
      intro x hx
      exact hq x (by simp only [List.cons_append, List.mem_cons]; right; exact hx)
    have hn' : '\n' ∉ cs ++ cssExt := by
      intro hm
      exact hn (by simp only [List.cons_append, List.mem_cons]; right; exact hm)
    have ihh := ih hq' hn'
    rw [List.cons_append, scanCss, hck, if_neg hnc, ihh]
    rfl

theorem span_space (c : Char) (cs : Chars) (hc : isWs c = false) :
    List.span isWs (' ' :: c :: cs) = ([' '], c :: cs) := by
  rw [List.span_eq_take_drop]
  rw [List.takeWhile_cons, List.dropWhile_cons]
  have hsp : isWs ' ' = true := by decide
  rw [hsp]
  simp only [if_true]
  rw [List.takeWhile_cons, List.dropWhile_cons, hc]
  simp

theorem tryHrefAt_elt (p0 a2 T : Chars)
    (hq : ∀ c ∈ p0 ++ cssExt, isQuoteCh c = false) (hn : '\n' ∉ p0 ++ cssExt)
    (habs : isAbsRef (p0 ++ (cssExt ++ '"' :: (a2 ++ '>' :: T))) = false)
    (ha2 : '>' ∉ a2) :
    tryHrefAt (hrefPat ++ '"' :: (p0 ++ (cssExt ++ '"' :: (a2 ++ '>' :: T)))) =
      some (hrefPat ++ '"' :: ((p0 ++ cssExt) ++ '"' :: (a2 ++ ['>'])), p0 ++ cssExt, T) := by
  rw [tryHrefAt, stripCI_refl hrefPat]
  dsimp only
  have hcond : (isQuoteCh '"' && !isAbsRef (p0 ++ (cssExt ++ '"' :: (a2 ++ '>' :: T)))) = true := by
    rw [habs]
    decide
  rw [if_pos hcond]
  have hsc := scanCss_path p0 (a2 ++ '>' :: T) hq hn
  rw [hsc]
  dsimp only
  rw [findGt_of_free a2 T ha2]

theorem findHref_elt (a1 : Chars) (ha1 : noHit hrefPat hrefPat a1 = true) (hgt : '>' ∉ a1)
    (p0 a2 T : Chars)
    (hq : ∀ c ∈ p0 ++ cssExt, isQuoteCh c = false) (hn : '\n' ∉ p0 ++ cssExt)
    (habs : isAbsRef (p0 ++ (cssExt ++ '"' :: (a2 ++ '>' :: T))) = false)
    (ha2 : '>' ∉ a2) :
    findHref (a1 ++ (hrefPat ++ '"' :: (p0 ++ (cssExt ++ '"' :: (a2 ++ '>' :: T))))) =
      some (a1 ++ (hrefPat ++ '"' :: ((p0 ++ cssExt) ++ '"' :: (a2 ++ ['>']))),
        p0 ++ cssExt, T) := by
  induction a1 with
  | nil =>
    simp only [List.nil_append]
    have htry := tryHrefAt_elt p0 a2 T hq hn habs ha2
    match hh : hrefPat ++ '"' :: (p0 ++ (cssExt ++ '"' :: (a2 ++ '>' :: T))), htry with
    | c :: cs, htry =>
      rw [findHref, htry]
  | cons c cs ih =>
    obtain ⟨hsw, hrest⟩ := noHit_head hrefPat hrefPat c cs ha1
    have htk : (hrefPat ++ '"' :: (p0 ++ (cssExt ++ '"' :: (a2 ++ '>' :: T)))).take
        hrefPat.length = hrefPat.take hrefPat.length := by
      rw [List.take_left, List.take_length]
    have hsw' : startsWithCI hrefPat
        ((c :: cs) ++ (hrefPat ++ '"' :: (p0 ++ (cssExt ++ '"' :: (a2 ++ '>' :: T))))) = false := by
      rw [startsWithCI_append_congr hrefPat (c :: cs) _ hrefPat htk]
      exact hsw
    have htry := tryHrefAt_none_of _ hsw'
    have hc : ¬ (c == '>') = true := by
      simp only [beq_iff_eq]
      intro hcon
      exact hgt (by simp [hcon])
    rw [List.cons_append, findHref]
    rw [show (c :: (cs ++ (hrefPat ++ '"' :: (p0 ++ (cssExt ++ '"' :: (a2 ++ '>' :: T)))))) =
      ((c :: cs) ++ (hrefPat ++ '"' :: (p0 ++ (cssExt ++ '"' :: (a2 ++ '>' :: T))))) from rfl,
      htry, if_neg hc]
    rw [ih hrest (fun hm => hgt (by simp [hm]))]
    simp

theorem matchLinkAt_elt (a1 p0 a2 T : Chars)
    (ha1 : noHit hrefPat hrefPat a1 = true) (hgt : '>' ∉ a1) (hws : headNotWs a1)
    (hq : ∀ c ∈ p0 ++ cssExt, isQuoteCh c = false) (hn : '\n' ∉ p0 ++ cssExt)
    (habs : isAbsRef (p0 ++ (cssExt ++ '"' :: (a2 ++ '>' :: T))) = false)
    (ha2 : '>' ∉ a2) :
    matchLinkAt (linkElt a1 (p0 ++ cssExt) a2 ++ T) =
      some (linkElt a1 (p0 ++ cssExt) a2, p0 ++ cssExt, T) := by
  have hshape : linkElt a1 (p0 ++ cssExt) a2 ++ T =
      linkPat ++ (' ' :: (a1 ++ (hrefPat ++ '"' :: (p0 ++ (cssExt ++ '"' :: (a2 ++ '>' :: T)))))) := by
    simp [linkElt]
  rw [hshape, matchLinkAt, stripCI_refl linkPat]
  have hspan : List.span isWs
      (' ' :: (a1 ++ (hrefPat ++ '"' :: (p0 ++ (cssExt ++ '"' :: (a2 ++ '>' :: T)))))) =
      ([' '], a1 ++ (hrefPat ++ '"' :: (p0 ++ (cssExt ++ '"' :: (a2 ++ '>' :: T))))) := by
    match a1, hws with
    | [], _ =>
      simp only [List.nil_append]
      exact span_space 'h' _ (by decide)
    | a :: as, hws =>
      simp only [List.cons_append]
      exact span_space a _ hws
  dsimp only
  rw [hspan]
  dsimp only
  rw [findHref_elt a1 ha1 hgt p0 a2 T hq hn habs ha2]
  dsimp only
  have hm : linkPat ++ [' '] ++
      (a1 ++ (hrefPat ++ '"' :: ((p0 ++ cssExt) ++ '"' :: (a2 ++ ['>'])))) =
      linkElt a1 (p0 ++ cssExt) a2 := by
    simp [linkElt]
  rw [hm]
  rfl

/-! ### Claims about the resource resolver -/

/-- Claim C5 (confirmed). For a stylesheet link element with a relative
href ending in `.css` (path free of quotes and newlines, attribute text
free of `>` and of `href=` occurrences, surrounding text free of further
matches — the side conditions under which the regex scan is unambiguous):
if the file resolved against the document directory exists, the resolver
replaces the whole link element by `<style>` + file text + `</style>`
verbatim; if it is missing, the document is returned character-for-
character unchanged (fail open) and scanning continues behind the match. -/
theorem claim5_css_inlining (w : Chars → Chars) (fs : Chars → Option Chars) (dir : Chars)
    (pre a1 p0 a2 post : Chars)
    (ha1 : noHit hrefPat hrefPat a1 = true) (ha1gt : '>' ∉ a1) (ha1ws : headNotWs a1)
    (hq : ∀ ch ∈ p0 ++ cssExt, isQuoteCh ch = false) (hn : '\n' ∉ p0 ++ cssExt)
    (habs : isAbsRef (p0 ++ (cssExt ++ '"' :: (a2 ++ '>' :: post))) = false)
    (ha2 : '>' ∉ a2)
    (hpre : noHit linkPat linkPat pre = true)
    (hpost : noHit linkPat [] post = true) :
    (∀ c, fs (joinPath dir (p0 ++ cssExt)) = some c →
      noHit srcPat [] (pre ++ (styleOpenChars ++ (c ++ (styleCloseChars ++ post)))) = true →
      noHit scriptPat [] (pre ++ (styleOpenChars ++ (c ++ (styleCloseChars ++ post)))) = true →
      convertResourcePaths w fs dir (pre ++ (linkElt a1 (p0 ++ cssExt) a2 ++ post)) =
        pre ++ (styleOpenChars ++ (c ++ (styleCloseChars ++ post)))) ∧
    (fs (joinPath dir (p0 ++ cssExt)) = none →
      noHit srcPat [] (pre ++ (linkElt a1 (p0 ++ cssExt) a2 ++ post)) = true →
      noHit scriptPat [] (pre ++ (linkElt a1 (p0 ++ cssExt) a2 ++ post)) = true →
      convertResourcePaths w fs dir (pre ++ (linkElt a1 (p0 ++ cssExt) a2 ++ post)) =
        pre ++ (linkElt a1 (p0 ++ cssExt) a2 ++ post)) := by
  have hmatch := matchLinkAt_elt a1 p0 a2 post ha1 ha1gt ha1ws hq hn habs ha2
  have ht5 : (linkElt a1 (p0 ++ cssExt) a2 ++ post).take linkPat.length = linkPat := by
    have : linkElt a1 (p0 ++ cssExt) a2 ++ post =
        linkPat ++ (' ' :: (a1 ++ hrefPat ++ '"' :: ((p0 ++ cssExt) ++ '"' :: (a2 ++ ['>']))) ++ post) := by
      simp [linkElt]
    rw [this, List.take_left]
  have hpre' : noHit linkPat ((linkElt a1 (p0 ++ cssExt) a2 ++ post).take linkPat.length)
      pre = true := by rw [ht5]; exact hpre
  have hA : cssPass fs dir (pre ++ (linkElt a1 (p0 ++ cssExt) a2 ++ post)) =
      pre ++ ((match fs (joinPath dir (p0 ++ cssExt)) with
        | some content => styleOpenChars ++ content ++ styleCloseChars
        | none => linkElt a1 (p0 ++ cssExt) a2) ++ post) := by
    rw [cssPass_append fs dir pre _ hpre']
    rw [cssPass_match fs dir _ _ _ _ hmatch]
    rw [cssPass_of_noHit fs dir post hpost]
  constructor
  · intro c hfs hsrc hscr
    have hA' : cssPass fs dir (pre ++ (linkElt a1 (p0 ++ cssExt) a2 ++ post)) =
        pre ++ (styleOpenChars ++ (c ++ (styleCloseChars ++ post))) := by
      rw [hA, hfs]
      simp
    rw [convertResourcePaths, hA', srcPass_of_noHit w dir _ hsrc,
      scriptPass_of_noHit fs dir _ hscr]
  · intro hfs hsrc hscr
    have hA' : cssPass fs dir (pre ++ (linkElt a1 (p0 ++ cssExt) a2 ++ post)) =
        pre ++ (linkElt a1 (p0 ++ cssExt) a2 ++ post) := by
      rw [hA, hfs]
    rw [convertResourcePaths, hA', srcPass_of_noHit w dir _ hsrc,
      scriptPass_of_noHit fs dir _ hscr]

/-- Witness for C5: scenario C of the spec — `AB <link rel="stylesheet"
href="style.css"> End` with `style.css` containing `body{color:red}`
resolves to `AB <style>body{color:red}</style> End`. -/
theorem claim5_css_inlining_witness :
    convertResourcePaths demoWv demoFs demoDir
        (demoPre ++ (linkElt demoA1 (demoP0 ++ cssExt) [] ++ demoPost)) =
      demoPre ++ (styleOpenChars ++ (demoCssBody ++ (styleCloseChars ++ demoPost))) := by
  have h := claim5_css_inlining demoWv demoFs demoDir demoPre demoA1 demoP0 [] demoPost
    (by decide) (by decide) (by decide) (by decide) (by decide) (by decide) (by decide)
    (by decide) (by decide)
  exact h.1 demoCssBody (by decide) (by decide) (by decide)

/-! ### No-op of all passes on documents with only absolute references -/

theorem refsOk_head (c : Char) (cs : Chars) (h : refsOk (c :: cs) = true) :
    refHeadOk (c :: cs) = true ∧ refsOk cs = true := by
  simpa [refsOk, Bool.and_eq_true] using h

theorem refsOk_suffix : ∀ l s : Chars, s <:+ l → refsOk l = true → refsOk s = true := by
  intro l
  induction l with
  | nil =>
    intro s hs h
    rw [List.suffix_nil.mp hs]
    exact h
  | cons c cs ih =>
    intro s hs h
    rcases List.suffix_cons_iff.mp hs with h1 | h2
    · rw [h1]; exact h
    · exact ih s h2 (refsOk_head c cs h).2

theorem trySrcAt_none_of_refsOk (l : Chars) (h : refHeadOk l = true) : trySrcAt l = none := by
  rw [trySrcAt]
  cases hs : stripCI srcPat l with
  | none => rfl
  | some pr =>
    obtain ⟨m, rest1⟩ := pr
    simp only [refHeadOk, Bool.and_eq_true, hs] at h
    match rest1, h with
    | [], h => rfl
    | q :: r, h =>
      dsimp only
      have hcond : ¬ (isQuoteCh q && !isAbsRef r) = true := by
        have h2 := h.2
        simp only [Bool.or_eq_true, Bool.not_eq_true'] at h2
        rcases h2 with hq | ha
        · simp [hq]
        · simp [ha]
      rw [if_neg hcond]

theorem tryHrefAt_none_of_refsOk (l : Chars) (h : refHeadOk l = true) : tryHrefAt l = none := by
  rw [tryHrefAt]
  cases hs : stripCI hrefPat l with
  | none => rfl
  | some pr =>
    obtain ⟨m, rest1⟩ := pr
    simp only [refHeadOk, Bool.and_eq_true, hs] at h
    match rest1, h with
    | [], h => rfl
    | q :: r, h =>
      dsimp only
      have hcond : ¬ (isQuoteCh q && !isAbsRef r) = true := by
        have h1 := h.1
        simp only [Bool.or_eq_true, Bool.not_eq_true'] at h1
        rcases h1 with hq | ha
        · simp [hq]
        · simp [ha]
      rw [if_neg hcond]

theorem tryScriptSrcAt_none_of_refsOk (l : Chars) (h : refHeadOk l = true) :
    tryScriptSrcAt l = none := by
  rw [tryScriptSrcAt]
  cases hs : stripCI srcPat l with
  | none => rfl
  | some pr =>
    obtain ⟨m, rest1⟩ := pr
    simp only [refHeadOk, Bool.and_eq_true, hs] at h
    match rest1, h with
    | [], h => rfl
    | q :: r, h =>
      dsimp only
      have hcond : ¬ (isQuoteCh q && !isAbsRef r) = true := by
        have h2 := h.2
        simp only [Bool.or_eq_true, Bool.not_eq_true'] at h2
        rcases h2 with hq | ha
        · simp [hq]
        · simp [ha]
      rw [if_neg hcond]

theorem findHref_none_of_refsOk : ∀ l : Chars, refsOk l = true → findHref l = none := by
  intro l
  induction l with
  | nil => intro h; rfl
  | cons c cs ih =>
    intro h
    obtain ⟨h1, h2⟩ := refsOk_head c cs h
    rw [findHref, tryHrefAt_none_of_refsOk (c :: cs) h1]
    by_cases hc : (c == '>') = true
    · rw [if_pos hc]
    · rw [if_neg hc, ih h2]

theorem findScriptSrc_none_of_refsOk : ∀ l : Chars, refsOk l = true → findScriptSrc l = none := by
  intro l
  induction l with
  | nil => intro h; rfl
  | cons c cs ih =>
    intro h
    obtain ⟨h1, h2⟩ := refsOk_head c cs h
    rw [findScriptSrc, tryScriptSrcAt_none_of_refsOk (c :: cs) h1]
    by_cases hc : (c == '>') = true
    · rw [if_pos hc]
    · rw [if_neg hc, ih h2]

theorem matchLinkAt_none_of_refsOk (l : Chars) (h : refsOk l = true) : matchLinkAt l = none := by
  rw [matchLinkAt]
  cases hs : stripCI linkPat l with
  | none => rfl
  | some pr =>
    obtain ⟨m5, r0⟩ := pr
    dsimp only
    have hr0 : refsOk r0 = true := by
      apply refsOk_suffix l r0 _ h
      rw [(stripCI_some linkPat l m5 r0 hs).1]
      exact List.suffix_append m5 r0
    have hsp : refsOk (List.span isWs r0).2 = true := by
      apply refsOk_suffix r0 _ _ hr0
      rw [List.span_eq_take_drop]
      exact List.dropWhile_suffix isWs
    by_cases hws : (List.span isWs r0).1.isEmpty = true
    · rw [if_pos hws]
    · rw [if_neg hws, findHref_none_of_refsOk _ hsp]

theorem matchScriptAt_none_of_refsOk (l : Chars) (h : refsOk l = true) :
    matchScriptAt l = none := by
  rw [matchScriptAt]
  cases hs : stripCI scriptPat l with
  | none => rfl
  | some pr =>
    obtain ⟨m7, r0⟩ := pr
    dsimp only
    have hr0 : refsOk r0 = true := by
      apply refsOk_suffix l r0 _ h
      rw [(stripCI_some scriptPat l m7 r0 hs).1]
      exact List.suffix_append m7 r0
    have hsp : refsOk (List.span isWs r0).2 = true := by
      apply refsOk_suffix r0 _ _ hr0
      rw [List.span_eq_take_drop]
      exact List.dropWhile_suffix isWs
    by_cases hws : (List.span isWs r0).1.isEmpty = true
    · rw [if_pos hws]
    · rw [if_neg hws, findScriptSrc_none_of_refsOk _ hsp]

theorem cssPass_of_refsOk (fs : Chars → Option Chars) (dir : Chars) :
    ∀ l : Chars, refsOk l = true → cssPass fs dir l = l := by
  intro l
  induction l with
  | nil => intro h; rfl
  | cons c cs ih =>
    intro h
    rw [cssPass_cons_none fs dir c cs (matchLinkAt_none_of_refsOk (c :: cs) h),
      ih (refsOk_head c cs h).2]

theorem srcPass_of_refsOk (w : Chars → Chars) (dir : Chars) :
    ∀ l : Chars, refsOk l = true → srcPass w dir l = l := by
  intro l
  induction l with
  | nil => intro h; rfl
  | cons c cs ih =>
    intro h
    rw [srcPass_cons_none w dir c cs (trySrcAt_none_of_refsOk (c :: cs) (refsOk_head c cs h).1),
      ih (refsOk_head c cs h).2]

theorem scriptPass_of_refsOk (fs : Chars → Option Chars) (dir : Chars) :
    ∀ l : Chars, refsOk l = true → scriptPass fs dir l = l := by
  intro l
  induction l with
  | nil => intro h; rfl
  | cons c cs ih =>
    intro h
    rw [scriptPass_cons_none fs dir c cs (matchScriptAt_none_of_refsOk (c :: cs) h),
      ih (refsOk_head c cs h).2]

/-- Claim C7 (confirmed). If every quoted `href=`/`src=` reference in the
document starts with `http` (covering `http://` and `https://`), `//` or
`data:`, the resolver returns the document text unchanged: each of the
three substitution passes finds no match (the negative lookahead rejects
every candidate), so `resolve(doc) = doc`. -/
theorem claim7_absolute_idempotence (w : Chars → Chars) (fs : Chars → Option Chars)
    (dir : Chars) (doc : Chars) (h : refsOk doc = true) :
    convertResourcePaths w fs dir doc = doc := by
  rw [convertResourcePaths, cssPass_of_refsOk fs dir doc h, srcPass_of_refsOk w dir doc h,
    scriptPass_of_refsOk fs dir doc h]

/-- Witness for C7: the absolute-only document above is returned
unchanged by the resolver. -/
theorem claim7_absolute_idempotence_witness :
    convertResourcePaths demoWv demoFs demoDir demoAbsDoc = demoAbsDoc :=
  claim7_absolute_idempotence demoWv demoFs demoDir demoAbsDoc (by decide)

/-! ### Script elements: the generic rewrite wins, inlining never fires -/

theorem startsWithCI_cons_false (p c : Char) (ps cs : Chars) (h : ciEq c p = false) :
    startsWithCI (p :: ps) (c :: cs) = false := by
  rw [startsWithCI_cons, h]
  rfl

theorem noHit_of_ne (p0 : Char) (ps : Chars) (hp0 : p0.toNat < 65) :
    ∀ (l cont : Chars), (∀ c ∈ l, c ≠ p0) → noHit (p0 :: ps) cont l = true := by
  intro l
  induction l with
  | nil => intro cont _; rfl
  | cons c cs ih =>
    intro cont h
    have hc : ciEq c p0 = false := ciEq_sym_false c p0 hp0 (h c (by simp))
    simp only [noHit, List.cons_append, Bool.and_eq_true, Bool.not_eq_true']
    exact ⟨startsWithCI_cons_false p0 c ps _ hc, ih cont (fun x hx => h x (by simp [hx]))⟩

theorem trySrcAt_elt (path rest : Chars)
    (hq : ∀ c ∈ path, isQuoteCh c = false) (hn : '\n' ∉ path)
    (habs : isAbsRef (path ++ '"' :: rest) = false) :
    trySrcAt (srcPat ++ '"' :: (path ++ '"' :: rest)) = some (path, rest) := by
  rw [trySrcAt, stripCI_refl srcPat]
  dsimp only
  have hcond : (isQuoteCh '"' && !isAbsRef (path ++ '"' :: rest)) = true := by
    rw [habs]
    decide
  rw [if_pos hcond, scanToQuote_path path rest hq hn]

theorem findScriptSrc_cons_step (c : Char) (cs : Chars)
    (h1 : tryScriptSrcAt (c :: cs) = none) (h2 : (c == '>') = false)
    (h3 : findScriptSrc cs = none) : findScriptSrc (c :: cs) = none := by
  rw [findScriptSrc, h1]
  dsimp only
  rw [if_neg (by simp [h2]), h3]

theorem findScriptSrc_W (W post : Chars) (hWgt : '>' ∉ W)
    (hWsrc : noHit srcPat ('"' :: '>' :: post) W = true) :
    findScriptSrc (W ++ '"' :: '>' :: post) = none := by
  induction W with
  | nil =>
    apply findScriptSrc_cons_step
    · exact tryScriptSrcAt_none_of _ (startsWithCI_cons_false 's' '"' _ _ (by decide))
    · decide
    · rw [findScriptSrc,
        tryScriptSrcAt_none_of _ (startsWithCI_cons_false 's' '>' _ _ (by decide))]
      dsimp only
      rw [if_pos (by decide)]
  | cons c cs ih =>
    obtain ⟨hsw, hrest⟩ := noHit_head srcPat ('"' :: '>' :: post) c cs hWsrc
    apply findScriptSrc_cons_step
    · exact tryScriptSrcAt_none_of _ (by simpa using hsw)
    · simp only [beq_eq_false_iff_ne, ne_eq]
      intro hcon
      exact hWgt (by simp [hcon])
    · exact ih (fun hm => hWgt (by simp [hm])) hrest

theorem findScriptSrc_gone (W post : Chars)
    (hW : startsWithCI httpPat W = true) (hWgt : '>' ∉ W)
    (hWsrc : noHit srcPat ('"' :: '>' :: post) W = true) :
    findScriptSrc (srcPat ++ '"' :: (W ++ '"' :: '>' :: post)) = none := by
  have h0 : tryScriptSrcAt (srcPat ++ '"' :: (W ++ '"' :: '>' :: post)) = none := by
    rw [tryScriptSrcAt, stripCI_refl srcPat]
    dsimp only
    have habs : isAbsRef (W ++ '"' :: '>' :: post) = true := by
      rw [isAbsRef, startsWithCI_extend httpPat W _ hW]
      rfl
    rw [if_neg (by simp [habs])]
  show findScriptSrc ('s' :: ('r' :: 'c' :: '=' :: '"' :: (W ++ '"' :: '>' :: post))) = none
  apply findScriptSrc_cons_step _ _ (by exact h0) (by decide)
  apply findScriptSrc_cons_step _ _
    (tryScriptSrcAt_none_of _ (startsWithCI_cons_false 's' 'r' _ _ (by decide))) (by decide)
  apply findScriptSrc_cons_step _ _
    (tryScriptSrcAt_none_of _ (startsWithCI_cons_false 's' 'c' _ _ (by decide))) (by decide)
  apply findScriptSrc_cons_step _ _
    (tryScriptSrcAt_none_of _ (startsWithCI_cons_false 's' '=' _ _ (by decide))) (by decide)
  apply findScriptSrc_cons_step _ _
    (tryScriptSrcAt_none_of _ (startsWithCI_cons_false 's' '"' _ _ (by decide))) (by decide)
  exact findScriptSrc_W W post hWgt hWsrc

theorem matchScriptAt_gone (W post : Chars)
    (hW : startsWithCI httpPat W = true) (hWgt : '>' ∉ W)
    (hWsrc : noHit srcPat ('"' :: '>' :: post) W = true) :
    matchScriptAt (scriptPat ++ (' ' :: (srcPat ++ '"' :: (W ++ '"' :: '>' :: post)))) = none := by
  rw [matchScriptAt, stripCI_refl scriptPat]
  dsimp only
  have hspan := span_space 's' ('r' :: 'c' :: '=' :: '"' :: (W ++ '"' :: '>' :: post)) (by decide)
  rw [show (' ' :: (srcPat ++ '"' :: (W ++ '"' :: '>' :: post))) =
    (' ' :: 's' :: ('r' :: 'c' :: '=' :: '"' :: (W ++ '"' :: '>' :: post))) from rfl, hspan]
  dsimp only
  rw [show ('s' :: ('r' :: 'c' :: '=' :: '"' :: (W ++ '"' :: '>' :: post))) =
    (srcPat ++ '"' :: (W ++ '"' :: '>' :: post)) from rfl]
  rw [findScriptSrc_gone W post hW hWgt hWsrc]
  rfl

/-- Claim C6 (corrected). As stated, the claim fails: a relative script
`src` is never inlined, because the generic `src` rewrite pass runs first
and replaces the relative path by the host webview URI (an `https://…`
reference), which the later script-inlining pass's negative lookahead then
rejects. Amended: for a script element `<script src="path">` with a
relative, existing path, the resolver's output references the script via
`src="<webview uri>"`; the file text is not embedded. -/
theorem claim6_script_rewrite (w : Chars → Chars) (fs : Chars → Option Chars) (dir : Chars)
    (pre path post content : Chars)
    (hfs : fs (joinPath dir path) = some content)
    (hq : ∀ c ∈ path, isQuoteCh c = false) (hn : '\n' ∉ path)
    (habs : isAbsRef (path ++ '"' :: '>' :: post) = false)
    (hlink : noHit linkPat [] (pre ++ (scriptElt path ++ post)) = true)
    (hpreSrc : noHit srcPat ['<', 's', 'c', 'r'] pre = true)
    (hpostSrc : noHit srcPat [] post = true)
    (hpreScr : noHit scriptPat scriptPat pre = true)
    (hpostScr : noHit scriptPat [] post = true)
    (hW : startsWithCI httpPat (w (joinPath dir path)) = true)
    (hWgt : '>' ∉ w (joinPath dir path))
    (hWlt : '<' ∉ w (joinPath dir path))
    (hWsrc : noHit srcPat ('"' :: '>' :: post) (w (joinPath dir path)) = true) :
    convertResourcePaths w fs dir (pre ++ (scriptElt path ++ post)) =
      pre ++ (scriptOpenSp ++ (srcEqQuote ++ (w (joinPath dir path) ++ '"' :: '>' :: post))) := by
  have hA : cssPass fs dir (pre ++ (scriptElt path ++ post)) =
      pre ++ (scriptElt path ++ post) := cssPass_of_noHit fs dir _ hlink
  have hsh1 : scriptElt path ++ post =
      scriptOpenSp ++ (srcPat ++ '"' :: (path ++ '"' :: ('>' :: post))) := by
    simp [scriptElt, scriptOpenSp, scriptPat, srcPat]
  have htk1 : (scriptElt path ++ post).take srcPat.length = ['<', 's', 'c', 'r'] := rfl
  have hB1 : srcPass w dir (pre ++ (scriptElt path ++ post)) =
      pre ++ srcPass w dir (scriptElt path ++ post) := by
    apply srcPass_append
    rw [htk1]
    exact hpreSrc
  have htk2 : ((srcPat ++ '"' :: (path ++ '"' :: ('>' :: post)))).take srcPat.length = srcPat :=
    rfl
  have hB2 : srcPass w dir (scriptElt path ++ post) =
      scriptOpenSp ++ srcPass w dir (srcPat ++ '"' :: (path ++ '"' :: ('>' :: post))) := by
    rw [hsh1]
    apply srcPass_append
    rw [htk2]
    decide
  have hB3 : srcPass w dir (srcPat ++ '"' :: (path ++ '"' :: ('>' :: post))) =
      (srcEqQuote ++ w (joinPath dir path) ++ ['"']) ++ srcPass w dir ('>' :: post) :=
    srcPass_match w dir _ path ('>' :: post) (trySrcAt_elt path ('>' :: post) hq hn habs)
  have hB4 : srcPass w dir ('>' :: post) = '>' :: post := by
    rw [srcPass_cons_none w dir '>' post
      (trySrcAt_none_of _ (startsWithCI_cons_false 's' '>' _ _ (by decide))),
      srcPass_of_noHit w dir post hpostSrc]
  have hB : srcPass w dir (pre ++ (scriptElt path ++ post)) =
      pre ++ (scriptOpenSp ++ ((srcEqQuote ++ w (joinPath dir path) ++ ['"']) ++ ('>' :: post))) := by
    rw [hB1, hB2, hB3, hB4]
  have hshC : scriptOpenSp ++ ((srcEqQuote ++ w (joinPath dir path) ++ ['"']) ++ ('>' :: post)) =
      scriptPat ++ (' ' :: (srcPat ++ '"' ::
        (w (joinPath dir path) ++ '"' :: '>' :: post))) := by
    simp [scriptOpenSp, srcEqQuote, scriptPat, srcPat]
  have htk3 : (scriptPat ++ (' ' :: (srcPat ++ '"' ::
      (w (joinPath dir path) ++ '"' :: '>' :: post)))).take scriptPat.length = scriptPat := by
    rw [List.take_left]
  have hC1 : scriptPass fs dir (pre ++ (scriptOpenSp ++
      ((srcEqQuote ++ w (joinPath dir path) ++ ['"']) ++ ('>' :: post)))) =
      pre ++ scriptPass fs dir (scriptPat ++ (' ' :: (srcPat ++ '"' ::
        (w (joinPath dir path) ++ '"' :: '>' :: post)))) := by
    rw [hshC]
    apply scriptPass_append
    rw [htk3]
    exact hpreScr
  have hC2 : scriptPass fs dir (scriptPat ++ (' ' :: (srcPat ++ '"' ::
      (w (joinPath dir path) ++ '"' :: '>' :: post)))) =
      '<' :: scriptPass fs dir (['s', 'c', 'r', 'i', 'p', 't'] ++ (' ' :: (srcPat ++ '"' ::
        (w (joinPath dir path) ++ '"' :: '>' :: post)))) := by
    exact scriptPass_cons_none fs dir '<' _
      (matchScriptAt_gone (w (joinPath dir path)) post hW hWgt hWsrc)
  have hshD : (['s', 'c', 'r', 'i', 'p', 't'] ++ (' ' :: (srcPat ++ '"' ::
      (w (joinPath dir path) ++ '"' :: '>' :: post)))) =
      (['s', 'c', 'r', 'i', 'p', 't', ' ', 's', 'r', 'c', '=', '"'] ++ w (joinPath dir path)) ++
        ('"' :: '>' :: post) := by
    simp [srcPat]
  have hC3 : scriptPass fs dir ((['s', 'c', 'r', 'i', 'p', 't', ' ', 's', 'r', 'c', '=', '"'] ++
      w (joinPath dir path)) ++ ('"' :: '>' :: post)) =
      (['s', 'c', 'r', 'i', 'p', 't', ' ', 's', 'r', 'c', '=', '"'] ++ w (joinPath dir path)) ++
        scriptPass fs dir ('"' :: '>' :: post) := by
    apply scriptPass_append
    apply noHit_of_ne '<' ['s', 'c', 'r', 'i', 'p', 't'] (by decide)
    intro c hc
    rcases List.mem_append.mp hc with h1 | h2
    · intro hcon
      rw [hcon] at h1
      revert h1
      decide
    · intro hcon
      rw [hcon] at h2
      exact hWlt h2
  have hC4 : scriptPass fs dir ('"' :: '>' :: post) = '"' :: '>' :: post := by
    rw [scriptPass_cons_none fs dir '"' _
        (matchScriptAt_none_of _ (startsWithCI_cons_false '<' '"' _ _ (by decide))),
      scriptPass_cons_none fs dir '>' _
        (matchScriptAt_none_of _ (startsWithCI_cons_false '<' '>' _ _ (by decide))),
      scriptPass_of_noHit fs dir post hpostScr]
  rw [convertResourcePaths, hA, hB, hC1, hC2, hshD, hC3, hC4]
  simp [scriptOpenSp, srcEqQuote, scriptPat, srcPat]

/-- Witness for C6 (amended): `AB <script src="app.js"> End` resolves to
the same document with the src replaced by the webview URI of `app.js`. -/
theorem claim6_script_rewrite_witness :
    convertResourcePaths demoWv demoFs2 demoDir
        (demoPre ++ (scriptElt demoJsPath ++ demoPost)) =
      demoPre ++ (scriptOpenSp ++ (srcEqQuote ++
        (demoWv (joinPath demoDir demoJsPath) ++ '"' :: '>' :: demoPost))) := by
  exact claim6_script_rewrite demoWv demoFs2 demoDir demoPre demoJsPath demoPost demoJsBody
    (by decide) (by decide) (by decide) (by decide) (by decide) (by decide) (by decide)
    (by decide) (by decide) (by decide) (by decide) (by decide) (by decide)

/-- Counterexample to C6 as stated: `app.js` exists and is readable, yet
the resolved output of `<script src="app.js"></script>` does not contain
the file's text anywhere — the script was not inlined. -/
theorem claim6_counterexample :
    demoFs2 (joinPath demoDir demoJsPath) = some demoJsBody ∧
    containsSub demoJsBody
      (convertResourcePaths demoWv demoFs2 demoDir
        (scriptElt demoJsPath ++ ['<', '/', 's', 'c', 'r', 'i', 'p', 't', '>'])) = false := by
  decide
